import Mathlib

/-!
Verification development for the fast_annotate image-rating tool
(`main.py`).  The session state machine (cursor, filters, undo history,
selection), the persistent record store, the browse filter/sort/paginate
pipeline and the catalog enumeration are shallowly embedded below; each
definition transliterates the corresponding Python function.

Modelling conventions:
* A database record (class named after the table in `main.py`) is `AnnRec`;
  the table is a `List AnnRec` ordered by insertion (`insert` appends,
  `update`/`delete` act on the row found by the `image_path=?` lookup with
  `limit=1`, i.e. on the first matching row).
* Python strings are `String`; ordering, lower-casing and substring tests
  are performed on the underlying `List Char` (code points), matching
  CPython semantics for the ASCII data the tool handles.
* `datetime.now().isoformat()` is an abstract `now : Nat` parameter;
  `get_username()` is an abstract `user : String` parameter.
* File-system effects are oracles: `fileExists`/`ioFail`/`writeOk`
  booleans stand for the outcome of the corresponding `open`/`unlink`/
  `write` calls, whose bodies are outside the modelled core.
* `list.sort(key=k)` (CPython timsort, stable) is modelled by the stable
  insertion sort `pySort` with the comparator `le a b = !(k b < k a)`
  (resp. `le a b = !(k a < k b)` for `reverse=True`, which CPython
  implements as reverse/sort/reverse, i.e. a stable descending sort).
  Any two stable sorts agree on a total preorder, so this is faithful.
-/

namespace FastAnnotate

/-- A row of the `annotations` table (`class` at `main.py:26`): image path,
rating, username, timestamp, marked flag.  The `id` primary key is the list
position (rows are only ever addressed through first-match lookups). -/
structure AnnRec where
  image_path : String
  rating : Int
  username : String
  timestamp : Nat
  marked : Bool
deriving DecidableEq, Repr

/-- The `annotations` table, rows in insertion order. -/
abbrev Store := List AnnRec

/-- `annotations("image_path=?", (p,), limit=1)`: first row for `p`. -/
def annFind (store : Store) (p : String) : Option AnnRec :=
  store.find? (fun a => a.image_path == p)

/-- `annotations.update(fields, existing[0].id)`: rewrite the first row
whose path is `p` with `f`. -/
def annUpdateFirst (store : Store) (p : String) (f : AnnRec → AnnRec) : Store :=
  match store with
  | [] => []
  | a :: rest => if a.image_path == p then f a :: rest else a :: annUpdateFirst rest p f

/-- `annotations.delete(existing[0].id)`: remove the first row for `p`. -/
def annDeleteFirst (store : Store) (p : String) : Store :=
  match store with
  | [] => []
  | a :: rest => if a.image_path == p then rest else a :: annDeleteFirst rest p

/-- Membership in `{a.image_path for a in annotations()}` (`main.py:112`):
`p` has a row, of any rating. -/
def isAnnotatedPath (store : Store) (p : String) : Bool :=
  store.any (fun a => a.image_path == p)

/-- Membership in `{a.image_path: a.rating for a in annotations() if
a.rating == r}` (`main.py:125`): some row for `p` has rating exactly `r`. -/
def hasRatingPath (store : Store) (r : Int) (p : String) : Bool :=
  store.any (fun a => a.image_path == p && a.rating == r)

/-- The dictionary returned by `get_annotation_for_image` (`main.py:156`):
the rating/marked data of the row for an image, defaulting to
`{'rating': 0, 'marked': False}` when no row exists. -/
structure AnnData where
  rating : Int
  marked : Bool
deriving DecidableEq, Repr

/-- `get_annotation_for_image` (`main.py:156`). -/
def get_ann_data (store : Store) (p : String) : AnnData :=
  match annFind store p with
  | some a => ⟨a.rating, a.marked⟩
  | none => ⟨0, false⟩

/-- One entry of `state.history`: the dict pushed by `rate` /
`rate_and_next` (`action = "rate"`, `image_data = none`) or by `delete`
(`action = "delete"`, `image_data` the saved file bytes, `none` when the
file was absent). -/
structure HistEntry where
  image_name : String
  old_rating : Int
  index : Nat
  action : String
  image_data : Option (List Nat)
deriving DecidableEq, Repr

/-- `AppState` (`main.py:70`): cursor, the two filter fields, undo history
(newest last), selection set, shift-click anchor. -/
structure AppState where
  current_index : Nat
  filter_unann : Bool
  filter_rating : Option Int
  history : List HistEntry
  selected : Finset String
  last_anchor : Option String
deriving DecidableEq

/-- `for i in range(start, stop): if pred(i): ...` — index of the first
match in `[start, stop)`. -/
def scanFrom (pred : Nat → Bool) (start stop : Nat) : Option Nat :=
  (List.range' start (stop - start)).find? pred

/-- `get_current_image` (`main.py:104`).  Returns the image (if any) and
the possibly updated state: only the wrap-around scans assign
`state.current_index`. -/
def get_current_image (images : List String) (store : Store) (st : AppState) :
    Option String × AppState :=
  if images.isEmpty then (none, st)
  else if st.filter_unann then
    match scanFrom (fun i => !(isAnnotatedPath store (images.getD i ""))) st.current_index images.length with
    | some i => (some (images.getD i ""), st)
    | none =>
      match scanFrom (fun i => !(isAnnotatedPath store (images.getD i ""))) 0 st.current_index with
      | some i => (some (images.getD i ""), { st with current_index := i })
      | none => (none, st)
  else
    match st.filter_rating with
    | some r =>
      match scanFrom (fun i => hasRatingPath store r (images.getD i "")) st.current_index images.length with
      | some i => (some (images.getD i ""), st)
      | none =>
        match scanFrom (fun i => hasRatingPath store r (images.getD i "")) 0 st.current_index with
        | some i => (some (images.getD i ""), { st with current_index := i })
        | none => (none, st)
    | none =>
      if st.current_index < images.length
      then (some (images.getD st.current_index ""), st)
      else (none, st)

/-- The `while attempts < max_attempts` loop of `navigate`
(`main.py:1081`): step `cur` by `direction`; break (returning `none`) when
out of bounds or out of attempts; return the first in-bounds position that
satisfies `pred`.  The fuel is `max_attempts`; it is consumed exactly when
the Python loop increments `attempts`. -/
def navLoop (images : List String) (pred : String → Bool) (direction : Int) :
    Nat → Int → Option Nat
  | 0, _ => none
  | fuel + 1, cur =>
    if 0 ≤ cur + direction ∧ cur + direction < (images.length : Int) then
      if pred (images.getD (cur + direction).toNat "") then some (cur + direction).toNat
      else navLoop images pred direction fuel (cur + direction)
    else none

/-- `navigate` (`main.py:1068`). -/
def navigate (images : List String) (store : Store) (st : AppState)
    (direction : Int) : AppState :=
  if st.filter_unann then
    match navLoop images (fun p => !(isAnnotatedPath store p)) direction
        images.length (st.current_index : Int) with
    | some j => { st with current_index := j }
    | none => st
  else
    match st.filter_rating with
    | some r =>
      match navLoop images (fun p => hasRatingPath store r p) direction
          images.length (st.current_index : Int) with
      | some j => { st with current_index := j }
      | none => st
    | none =>
      if 0 ≤ (st.current_index : Int) + direction ∧
          (st.current_index : Int) + direction < (images.length : Int)
      then { st with current_index := ((st.current_index : Int) + direction).toNat }
      else st

/-- `if len(state.history) > config.max_history: state.history =
state.history[-config.max_history:]` (`main.py:809`). -/
def truncHist (h : List HistEntry) (cap : Nat) : List HistEntry :=
  if h.length > cap then h.drop (h.length - cap) else h

/-- `rate` (`main.py:790`): reject out-of-range ratings; otherwise resolve
the current image, push a `"rate"` history entry recording the old rating
and the (post-resolution) cursor, trim the history, and update the first
existing row's rating and timestamp — or insert a fresh unmarked row. -/
def rate (numClasses maxHistory : Nat) (images : List String) (store : Store)
    (st : AppState) (r : Int) (now : Nat) (user : String) : AppState × Store :=
  if r < 1 ∨ r > (numClasses : Int) then (st, store)
  else
    match get_current_image images store st with
    | (none, st') => (st', store)
    | (some img, st') =>
      let oldR := (get_ann_data store img).rating
      let entry : HistEntry := ⟨img, oldR, st'.current_index, "rate", none⟩
      let hist := truncHist (st'.history ++ [entry]) maxHistory
      let store' :=
        match annFind store img with
        | some _ => annUpdateFirst store img (fun a => { a with rating := r, timestamp := now })
        | none => store ++ [⟨img, r, user, now, false⟩]
      ({ st' with history := hist }, store')

/-- `mark` (`main.py:950`): toggle the marked flag of the current image's
row, or insert a rating-0 marked row when none exists. -/
def mark (images : List String) (store : Store) (st : AppState)
    (now : Nat) (user : String) : AppState × Store :=
  match get_current_image images store st with
  | (none, st') => (st', store)
  | (some img, st') =>
    match annFind store img with
    | some _ => (st', annUpdateFirst store img (fun b => { b with marked := !b.marked }))
    | none => (st', store ++ [⟨img, 0, user, now, true⟩])

/-- Python truthiness of the optional saved bytes (`if image_data:` at
`main.py:903`): `None` and the empty byte string are falsy. -/
def pyTruthyBytes : Option (List Nat) → Bool
  | none => false
  | some bs => !bs.isEmpty

/-- `undo` (`main.py:890`).  Pops the newest history entry.  For a
`"delete"` entry: when the saved bytes are truthy, rewrite the file
(outcome `writeOk`) and, only if that write succeeded and the previous
rating was positive, insert a fresh unmarked row with that rating; the
cursor is restored in every case.  For any other entry (`"rate"`): when
the previous rating is 0 delete the first row for the image if one exists,
otherwise update the first row's rating if one exists (no row is created);
then restore the cursor. -/
def undo (store : Store) (st : AppState) (now : Nat) (user : String)
    (writeOk : Bool) : AppState × Store :=
  match st.history.getLast? with
  | none => (st, store)
  | some e =>
    let st1 := { st with history := st.history.dropLast }
    if e.action == "delete" then
      let store' :=
        if pyTruthyBytes e.image_data then
          if writeOk then
            if e.old_rating > 0 then
              store ++ [⟨e.image_name, e.old_rating, user, now, false⟩]
            else store
          else store
        else store
      ({ st1 with current_index := e.index }, store')
    else
      let store' :=
        if e.old_rating == 0 then
          match annFind store e.image_name with
          | some _ => annDeleteFirst store e.image_name
          | none => store
        else
          match annFind store e.image_name with
          | some _ => annUpdateFirst store e.image_name (fun a => { a with rating := e.old_rating })
          | none => store
      ({ st1 with current_index := e.index }, store')

/-- `delete` (`main.py:1021`).  Resolve the current image; when the file
exists and reading/unlinking it raises (`ioFail`), return with no further
changes.  Otherwise push a `"delete"` history entry carrying the file
bytes (`none` when the file was absent), trim the history, and delete the
image's first row if one exists. -/
def deleteOp (maxHistory : Nat) (images : List String) (store : Store)
    (st : AppState) (fileExists ioFail : Bool) (fileBytes : List Nat) :
    AppState × Store :=
  match get_current_image images store st with
  | (none, st') => (st', store)
  | (some img, st') =>
    let oldR := (get_ann_data store img).rating
    if fileExists && ioFail then (st', store)
    else
      let data : Option (List Nat) := if fileExists then some fileBytes else none
      let entry : HistEntry := ⟨img, oldR, st'.current_index, "delete", data⟩
      let hist := truncHist (st'.history ++ [entry]) maxHistory
      let store' :=
        match annFind store img with
        | some _ => annDeleteFirst store img
        | none => store
      ({ st' with history := hist }, store')

/-- Python truthiness of `state.last_anchor` (`main.py:655`): `None` and
the empty string are falsy. -/
def pyTruthyStr : Option String → Bool
  | none => false
  | some s => !(s == "")

/-- `toggle_select` (`main.py:648`), with the browse-grid re-render
dropped.  `order` is the `[str(p) for (p, _r, _m) in items]` list of the
currently filtered, sorted browse items.  With shift held and a truthy
anchor, `order.index` is taken of the anchor and then of the clicked
image; if both succeed every element of the closed slice between the two
positions is added to the selection, and on `ValueError` the click falls
back to a plain membership toggle.  The anchor becomes the clicked image
in all of these cases. -/
def toggle_select (st : AppState) (image : String) (shift : Bool)
    (order : List String) : AppState :=
  if image == "" then st
  else if shift && pyTruthyStr st.last_anchor then
    let anchor := st.last_anchor.getD ""
    match order.indexOf? anchor, order.indexOf? image with
    | some i1, some i2 =>
      let lo := min i1 i2
      let hi := max i1 i2
      let seg := (order.drop lo).take (hi + 1 - lo)
      { st with selected := seg.foldl (fun acc x => insert x acc) st.selected,
                last_anchor := some image }
    | _, _ =>
      { st with selected := if image ∈ st.selected then st.selected.erase image
                            else insert image st.selected,
                last_anchor := some image }
  else
    { st with selected := if image ∈ st.selected then st.selected.erase image
                          else insert image st.selected,
              last_anchor := some image }

/-- Code-point strict order on character lists: CPython `str` comparison. -/
def lexLtCh : List Char → List Char → Bool
  | [], [] => false
  | [], _ :: _ => true
  | _ :: _, [] => false
  | x :: xs, y :: ys =>
    if x.toNat < y.toNat then true
    else if x.toNat = y.toNat then lexLtCh xs ys
    else false

/-- `str.lower()` on the underlying code points (ASCII case folding, which
is all the tool's data exercises). -/
def lowerData (s : String) : List Char := s.data.map Char.toLower

/-- CPython tuple comparison on an `(int, str)` sort key. -/
def tupLtIC (a b : Int × List Char) : Bool :=
  if a.1 < b.1 then true else if a.1 = b.1 then lexLtCh a.2 b.2 else false

/-- CPython `bool` comparison treats `False < True`. -/
def boolNat (b : Bool) : Nat := if b then 1 else 0

/-- CPython tuple comparison on a `(bool, str)` sort key. -/
def tupLtBC (a b : Bool × List Char) : Bool :=
  if boolNat a.1 < boolNat b.1 then true
  else if boolNat a.1 = boolNat b.1 then lexLtCh a.2 b.2 else false

/-- `if le a b` insert here, else keep scanning: the insertion step of a
stable sort. -/
def ordInsert {α : Type} (le : α → α → Bool) (a : α) : List α → List α
  | [] => [a]
  | b :: l => if le a b then a :: b :: l else b :: ordInsert le a l

/-- Stable sort with a boolean comparator; models `list.sort` (timsort is
stable, and all stable sorts agree under a total preorder comparator). -/
def pySort {α : Type} (le : α → α → Bool) (l : List α) : List α :=
  l.foldr (ordInsert le) []

/-- `needle in hay` on code points (CPython substring test). -/
def isInfixCh (needle : List Char) : List Char → Bool
  | [] => needle.isEmpty
  | c :: rest => needle.isPrefixOf (c :: rest) || isInfixCh needle rest

/-- `str.strip()`: drop leading and trailing whitespace code points. -/
def stripData (l : List Char) : List Char :=
  ((l.dropWhile Char.isWhitespace).reverse.dropWhile Char.isWhitespace).reverse

/-- `str.strip()` as a `String` map. -/
def pyStrip (s : String) : String := ⟨stripData s.data⟩

/-- `str.isdigit()` restricted to the ASCII digits the query strings use. -/
def isDigitStr (s : String) : Bool := !s.data.isEmpty && s.data.all Char.isDigit

/-- Decimal value of an all-digit string. -/
def digitsToNat (l : List Char) : Nat := l.foldl (fun n c => n * 10 + (c.toNat - 48)) 0

/-- The dictionary built by `get_annotations_map` (`main.py:172`): later
rows overwrite earlier ones, so lookups see the **last** row for a path,
defaulting to rating 0 / unmarked. -/
def amapLookup (store : Store) (p : String) : AnnData :=
  match store.reverse.find? (fun a => a.image_path == p) with
  | some a => ⟨a.rating, a.marked⟩
  | none => ⟨0, false⟩

/-- The `(rating, name.lower())` sort key of `main.py:211`. -/
def keyRatingName (t : String × Int × Bool) : Int × List Char := (t.2.1, lowerData t.1)

/-- The `(not marked, name.lower())` sort key of `main.py:215`. -/
def keyMarkedName (t : String × Int × Bool) : Bool × List Char := (!t.2.2, lowerData t.1)

/-- The filtering stage of `_filtered_items` (`main.py:179`): normalize
the raw query parameters and keep the catalog entries passing the
conjunction of filters, as `(path, rating, marked)` triples in catalog
order. -/
def browseFilter (images : List String) (store : Store)
    (q ratingQ showQ markedQ : String) : List (String × Int × Bool) :=
  let qs := pyStrip q
  let ratingVal : Option Int := if isDigitStr ratingQ then some (digitsToNat ratingQ.data) else none
  let showV := if showQ == "" then "all" else showQ
  let markedOnly := markedQ == "on" || markedQ == "true" || markedQ == "1"
  images.filterMap (fun p =>
    let ann := amapLookup store p
    let keep :=
      (qs == "" || isInfixCh (lowerData qs) (lowerData p)) &&
      (match ratingVal with | some rv => ann.rating == rv | none => true) &&
      (!(showV == "annotated") || decide (ann.rating > 0)) &&
      (!(showV == "unannotated") || decide (ann.rating ≤ 0)) &&
      (!markedOnly || ann.marked)
    if keep then some (p, ann.rating, ann.marked) else none)

/-- Comparator of `items.sort(key=lambda t: str(t[0]).lower())`: a stable
ascending sort places `a` no later than `b` iff `key(b) < key(a)` fails. -/
def leName (a b : String × Int × Bool) : Bool :=
  !(lexLtCh (lowerData b.1) (lowerData a.1))

/-- Comparator of the `name_desc` sort (`reverse=True`: a stable
descending sort, as CPython implements it by reverse/sort/reverse). -/
def leNameDesc (a b : String × Int × Bool) : Bool :=
  !(lexLtCh (lowerData a.1) (lowerData b.1))

/-- Comparator of the `rating_asc` sort (`key=(rating, name.lower())`). -/
def leRatingAsc (a b : String × Int × Bool) : Bool :=
  !(tupLtIC (keyRatingName b) (keyRatingName a))

/-- Comparator of the `rating_desc` sort (`key=(rating, name.lower())`,
`reverse=True` — note the reversal also flips the name tie-break). -/
def leRatingDesc (a b : String × Int × Bool) : Bool :=
  !(tupLtIC (keyRatingName a) (keyRatingName b))

/-- Comparator of the `marked_first` sort
(`key=(not marked, name.lower())`, ascending). -/
def leMarkedFirst (a b : String × Int × Bool) : Bool :=
  !(tupLtBC (keyMarkedName b) (keyMarkedName a))

/-- `_filtered_items` (`main.py:179`): the filter stage followed by the
`items.sort(...)` dispatch on the `sort` mode. -/
def filteredItems (images : List String) (store : Store)
    (q ratingQ showQ markedQ sortQ : String) : List (String × Int × Bool) :=
  let base := browseFilter images store q ratingQ showQ markedQ
  if sortQ == "name_desc" then pySort leNameDesc base
  else if sortQ == "rating_desc" then pySort leRatingDesc base
  else if sortQ == "rating_asc" then pySort leRatingAsc base
  else if sortQ == "marked_first" then pySort leMarkedFirst base
  else pySort leName base

/-- `int(page or '1')` (`main.py:224`): optional sign then decimal digits
(surrounding whitespace allowed); `none` models the `except` path. -/
def pyIntParse (s : String) : Option Int :=
  match stripData s.data with
  | '-' :: ds => if !ds.isEmpty && ds.all Char.isDigit then some (-(digitsToNat ds : Int)) else none
  | '+' :: ds => if !ds.isEmpty && ds.all Char.isDigit then some (digitsToNat ds : Int) else none
  | ds => if !ds.isEmpty && ds.all Char.isDigit then some (digitsToNat ds : Int) else none

/-- The pagination core of `render_browser_grid` (`main.py:220`), with the
HTML dropped: the effective page number `page_i = max(1, int(page or
'1'))` (1 on a parse failure), the page slice `items[start:start +
per_page]`, and `total_pages = max(1, ceil(total / per_page))`.  Returns
`(page_items, total, total_pages, page_i)`. -/
def render_browser_grid (images : List String) (store : Store)
    (q ratingQ showQ markedQ sortQ page : String) (per_page : Nat) :
    List (String × Int × Bool) × Nat × Nat × Nat :=
  let page_i : Nat :=
    match pyIntParse (if page == "" then "1" else page) with
    | some n => (max 1 n).toNat
    | none => 1
  let items := filteredItems images store q ratingQ showQ markedQ sortQ
  let total := items.length
  let start := (page_i - 1) * per_page
  let page_items := (items.drop start).take per_page
  let total_pages := max 1 ((total + per_page - 1) / per_page)
  (page_items, total, total_pages, page_i)

/-- A file path relative to the images root, as its list of segments
(`pathlib` compares paths by their tuple of parts). -/
abbrev FPath := List String

/-- Strict pathlib ordering: lexicographic on segments, code-point order
within a segment. -/
def fpathLt : FPath → FPath → Bool
  | [], [] => false
  | [], _ :: _ => true
  | _ :: _, [] => false
  | x :: xs, y :: ys =>
    if lexLtCh x.data y.data then true
    else if x = y then fpathLt xs ys
    else false

/-- `str.upper()` on the underlying code points (ASCII, as the extension
constants are). -/
def upperStr (s : String) : String := ⟨s.data.map Char.toUpper⟩

/-- `rglob(f"*{ext}")` membership: the final path component ends with
`ext` (case-sensitively, as POSIX `fnmatch` is). -/
def nameEndsWith (ext : String) (p : FPath) : Bool :=
  ext.data.isSuffixOf (p.getLast?.getD "").data

/-- The extension list of `main.py:87`. -/
def allowedExts : List String := [".jpg", ".jpeg", ".png"]

/-- `get_image_files` (`main.py:82`).  The file system under the images
root is an oracle: `none` when the root does not exist, otherwise the
(recursively enumerated) list of relative file paths in arbitrary order.
For each extension the matching files are appended (lower-case pattern
then upper-case pattern), and the result is `sorted(...)`. -/
def get_image_files (fsRoot : Option (List FPath)) : List FPath :=
  match fsRoot with
  | none => []
  | some files =>
    let collected := allowedExts.foldl (fun acc ext =>
      (acc ++ files.filter (nameEndsWith ext)) ++ files.filter (nameEndsWith (upperStr ext))) []
    pySort (fun a b => !(fpathLt b a)) collected

/-! ### Scan-loop infrastructure -/

theorem find?_range'_eq_some {p : Nat → Bool} {s n j : Nat} :
    (List.range' s n).find? p = some j ↔
      s ≤ j ∧ j < s + n ∧ p j = true ∧ ∀ k, s ≤ k → k < j → p k = false := by
  induction n generalizing s with
  | zero =>
    constructor
    · intro h; simp [List.range'] at h
    · rintro ⟨h1, h2, -, -⟩; exact absurd h2 (by omega)
  | succ n ih =>
    rw [List.range'_succ]
    by_cases hp : p s
    · rw [List.find?_cons_of_pos _ hp]
      constructor
      · intro h
        rw [Option.some.injEq] at h
        subst h
        exact ⟨Nat.le_refl _, by omega, hp, fun k hk1 hk2 => absurd hk2 (by omega)⟩
      · rintro ⟨h1, h2, h3, h4⟩
        rcases Nat.eq_or_lt_of_le h1 with h | h
        · rw [h]
        · exact absurd hp (by simp [h4 s (Nat.le_refl _) h])
    · rw [List.find?_cons_of_neg _ hp]
      rw [ih]
      constructor
      · rintro ⟨h1, h2, h3, h4⟩
        refine ⟨by omega, by omega, h3, fun k hk1 hk2 => ?_⟩
        rcases Nat.eq_or_lt_of_le hk1 with h | h
        · rw [← h]; exact Bool.eq_false_iff.mpr hp
        · exact h4 k h hk2
      · rintro ⟨h1, h2, h3, h4⟩
        have hjs : j ≠ s := by
          intro h; rw [h] at h3; exact hp h3
        exact ⟨by omega, by omega, h3, fun k hk1 hk2 => h4 k (by omega) hk2⟩

theorem find?_range'_eq_none {p : Nat → Bool} {s n : Nat} :
    (List.range' s n).find? p = none ↔ ∀ k, s ≤ k → k < s + n → p k = false := by
  rw [List.find?_eq_none]
  constructor
  · intro h k hk1 hk2
    exact Bool.not_eq_true _ ▸ h k (List.mem_range'_1.mpr ⟨hk1, hk2⟩)
  · intro h x hx
    rcases List.mem_range'_1.mp hx with ⟨h1, h2⟩
    simp [h x h1 h2]

theorem scanFrom_eq_some {pred : Nat → Bool} {a b j : Nat} (hab : a ≤ b) :
    scanFrom pred a b = some j ↔
      a ≤ j ∧ j < b ∧ pred j = true ∧ ∀ k, a ≤ k → k < j → pred k = false := by
  unfold scanFrom
  rw [find?_range'_eq_some]
  have h : a + (b - a) = b := by omega
  rw [h]

theorem scanFrom_eq_none {pred : Nat → Bool} {a b : Nat} (hab : a ≤ b) :
    scanFrom pred a b = none ↔ ∀ k, a ≤ k → k < b → pred k = false := by
  unfold scanFrom
  rw [find?_range'_eq_none]
  have h : a + (b - a) = b := by omega
  rw [h]

/-! ### Stable-sort infrastructure -/

theorem ordInsert_perm {α : Type} (le : α → α → Bool) (a : α) (l : List α) :
    (ordInsert le a l).Perm (a :: l) := by
  induction l with
  | nil => simp [ordInsert]
  | cons b t ih =>
    unfold ordInsert
    by_cases h : le a b
    · simp [h]
    · simp only [h, if_false]
      exact (ih.cons b).trans (List.Perm.swap a b t)

theorem pySort_perm {α : Type} (le : α → α → Bool) (l : List α) :
    (pySort le l).Perm l := by
  induction l with
  | nil => simp [pySort]
  | cons a t ih =>
    exact (ordInsert_perm le a (pySort le t)).trans (ih.cons a)

theorem mem_pySort {α : Type} {le : α → α → Bool} {l : List α} {x : α} :
    x ∈ pySort le l ↔ x ∈ l :=
  (pySort_perm le l).mem_iff

theorem pairwise_ordInsert {α : Type} {le : α → α → Bool}
    (htr : ∀ a b c, le a b = true → le b c = true → le a c = true)
    (htot : ∀ a b, le a b = true ∨ le b a = true) (a : α) {l : List α}
    (hl : l.Pairwise (fun x y => le x y = true)) :
    (ordInsert le a l).Pairwise (fun x y => le x y = true) := by
  induction l with
  | nil => simp [ordInsert]
  | cons b t ih =>
    rcases List.pairwise_cons.mp hl with ⟨hb, ht⟩
    unfold ordInsert
    by_cases h : le a b
    · simp only [h, if_true]
      refine List.pairwise_cons.mpr ⟨?_, hl⟩
      intro y hy
      rcases List.mem_cons.mp hy with rfl | hy
      · exact h
      · exact htr a b y h (hb y hy)
    · simp only [h, if_false]
      refine List.pairwise_cons.mpr ⟨?_, ih ht⟩
      intro y hy
      rcases List.mem_cons.mp ((ordInsert_perm le a t).mem_iff.mp hy) with rfl | hy
      · rcases htot y b with h' | h'
        · exact absurd h' h
        · exact h'
      · exact hb y hy

theorem pairwise_pySort {α : Type} {le : α → α → Bool}
    (htr : ∀ a b c, le a b = true → le b c = true → le a c = true)
    (htot : ∀ a b, le a b = true ∨ le b a = true) (l : List α) :
    (pySort le l).Pairwise (fun x y => le x y = true) := by
  induction l with
  | nil => simp [pySort]
  | cons a t ih => exact pairwise_ordInsert htr htot a ih

/-! ### Comparator facts: the strict orders used as sort keys -/

theorem char_toNat_inj {x y : Char} (h : x.toNat = y.toNat) : x = y :=
  Char.ext (UInt32.ext h)

theorem lexLtCh_asymm : ∀ {a b : List Char}, lexLtCh a b = true → lexLtCh b a = false
  | [], [], h => by simp [lexLtCh] at h
  | [], _ :: _, _ => by simp [lexLtCh]
  | _ :: _, [], h => by simp [lexLtCh] at h
  | x :: xs, y :: ys, h => by
    simp only [lexLtCh] at h ⊢
    rcases Nat.lt_trichotomy x.toNat y.toNat with h1 | h1 | h1
    · rw [if_neg (by omega), if_neg (by omega)]
    · rw [if_neg (by omega), if_pos h1] at h
      rw [if_neg (by omega), if_pos h1.symm]
      exact lexLtCh_asymm h
    · rw [if_neg (by omega), if_neg (by omega)] at h
      cases h

theorem lexLtCh_connex : ∀ {a b : List Char},
    lexLtCh a b = false → lexLtCh b a = false → a = b
  | [], [], _, _ => rfl
  | [], _ :: _, h, _ => by simp [lexLtCh] at h
  | _ :: _, [], _, h => by simp [lexLtCh] at h
  | x :: xs, y :: ys, h1, h2 => by
    simp only [lexLtCh] at h1 h2
    rcases Nat.lt_trichotomy x.toNat y.toNat with hx | hx | hx
    · rw [if_pos hx] at h1; cases h1
    · rw [if_neg (by omega), if_pos hx] at h1
      rw [if_neg (by omega), if_pos hx.symm] at h2
      rw [char_toNat_inj hx, lexLtCh_connex h1 h2]
    · rw [if_pos hx] at h2; cases h2

theorem lexLtCh_trans : ∀ {a b c : List Char},
    lexLtCh a b = true → lexLtCh b c = true → lexLtCh a c = true
  | [], [], _, h, _ => by simp [lexLtCh] at h
  | [], _ :: _, [], _, h => by simp [lexLtCh] at h
  | [], _ :: _, _ :: _, _, _ => by simp [lexLtCh]
  | _ :: _, [], _, h, _ => by simp [lexLtCh] at h
  | _ :: _, _ :: _, [], _, h => by simp [lexLtCh] at h
  | x :: xs, y :: ys, z :: zs, h1, h2 => by
    simp only [lexLtCh] at h1 h2 ⊢
    rcases Nat.lt_trichotomy x.toNat y.toNat with hxy | hxy | hxy
    · rcases Nat.lt_trichotomy y.toNat z.toNat with hyz | hyz | hyz
      · rw [if_pos (by omega)]
      · rw [if_pos (by omega)]
      · rw [if_neg (by omega), if_neg (by omega)] at h2; cases h2
    · rw [if_neg (by omega), if_pos hxy] at h1
      rcases Nat.lt_trichotomy y.toNat z.toNat with hyz | hyz | hyz
      · rw [if_pos (by omega)]
      · rw [if_neg (by omega), if_pos hyz] at h2
        rw [if_neg (by omega), if_pos (by omega)]
        exact lexLtCh_trans h1 h2
      · rw [if_neg (by omega), if_neg (by omega)] at h2; cases h2
    · rw [if_neg (by omega), if_neg (by omega)] at h1; cases h1

theorem tupLtIC_asymm {a b : Int × List Char} (h : tupLtIC a b = true) :
    tupLtIC b a = false := by
  unfold tupLtIC at h ⊢
  rcases lt_trichotomy a.1 b.1 with h1 | h1 | h1
  · rw [if_neg (by omega), if_neg (by omega)]
  · rw [if_neg (by omega), if_pos h1] at h
    rw [if_neg (by omega), if_pos h1.symm]
    exact lexLtCh_asymm h
  · rw [if_neg (by omega), if_neg (by omega)] at h; cases h

theorem tupLtIC_connex {a b : Int × List Char} (h1 : tupLtIC a b = false)
    (h2 : tupLtIC b a = false) : a = b := by
  unfold tupLtIC at h1 h2
  rcases lt_trichotomy a.1 b.1 with hx | hx | hx
  · rw [if_pos hx] at h1; cases h1
  · rw [if_neg (by omega), if_pos hx] at h1
    rw [if_neg (by omega), if_pos hx.symm] at h2
    exact Prod.ext hx (lexLtCh_connex h1 h2)
  · rw [if_pos hx] at h2; cases h2

theorem tupLtIC_trans {a b c : Int × List Char} (h1 : tupLtIC a b = true)
    (h2 : tupLtIC b c = true) : tupLtIC a c = true := by
  unfold tupLtIC at h1 h2 ⊢
  rcases lt_trichotomy a.1 b.1 with hxy | hxy | hxy
  · rcases lt_trichotomy b.1 c.1 with hyz | hyz | hyz
    · rw [if_pos (by omega)]
    · rw [if_pos (by omega)]
    · rw [if_neg (by omega), if_neg (by omega)] at h2; cases h2
  · rw [if_neg (by omega), if_pos hxy] at h1
    rcases lt_trichotomy b.1 c.1 with hyz | hyz | hyz
    · rw [if_pos (by omega)]
    · rw [if_neg (by omega), if_pos (by omega)] at h2
      rw [if_neg (by omega), if_pos (by omega)]
      exact lexLtCh_trans h1 h2
    · rw [if_neg (by omega), if_neg (by omega)] at h2; cases h2
  · rw [if_neg (by omega), if_neg (by omega)] at h1; cases h1

theorem boolNat_inj {a b : Bool} (h : boolNat a = boolNat b) : a = b := by
  cases a <;> cases b <;> simp [boolNat] at h ⊢

theorem tupLtBC_asymm {a b : Bool × List Char} (h : tupLtBC a b = true) :
    tupLtBC b a = false := by
  unfold tupLtBC at h ⊢
  rcases Nat.lt_trichotomy (boolNat a.1) (boolNat b.1) with h1 | h1 | h1
  · rw [if_neg (by omega), if_neg (by omega)]
  · rw [if_neg (by omega), if_pos h1] at h
    rw [if_neg (by omega), if_pos h1.symm]
    exact lexLtCh_asymm h
  · rw [if_neg (by omega), if_neg (by omega)] at h; cases h

theorem tupLtBC_connex {a b : Bool × List Char} (h1 : tupLtBC a b = false)
    (h2 : tupLtBC b a = false) : a = b := by
  unfold tupLtBC at h1 h2
  rcases Nat.lt_trichotomy (boolNat a.1) (boolNat b.1) with hx | hx | hx
  · rw [if_pos hx] at h1; cases h1
  · rw [if_neg (by omega), if_pos hx] at h1
    rw [if_neg (by omega), if_pos hx.symm] at h2
    exact Prod.ext (boolNat_inj hx) (lexLtCh_connex h1 h2)
  · rw [if_pos hx] at h2; cases h2

theorem tupLtBC_trans {a b c : Bool × List Char} (h1 : tupLtBC a b = true)
    (h2 : tupLtBC b c = true) : tupLtBC a c = true := by
  unfold tupLtBC at h1 h2 ⊢
  rcases Nat.lt_trichotomy (boolNat a.1) (boolNat b.1) with hxy | hxy | hxy
  · rcases Nat.lt_trichotomy (boolNat b.1) (boolNat c.1) with hyz | hyz | hyz
    · rw [if_pos (by omega)]
    · rw [if_pos (by omega)]
    · rw [if_neg (by omega), if_neg (by omega)] at h2; cases h2
  · rw [if_neg (by omega), if_pos hxy] at h1
    rcases Nat.lt_trichotomy (boolNat b.1) (boolNat c.1) with hyz | hyz | hyz
    · rw [if_pos (by omega)]
    · rw [if_neg (by omega), if_pos (by omega)] at h2
      rw [if_neg (by omega), if_pos (by omega)]
      exact lexLtCh_trans h1 h2
    · rw [if_neg (by omega), if_neg (by omega)] at h2; cases h2
  · rw [if_neg (by omega), if_neg (by omega)] at h1; cases h1

theorem fpathLt_asymm : ∀ {a b : FPath}, fpathLt a b = true → fpathLt b a = false
  | [], [], h => by simp [fpathLt] at h
  | [], _ :: _, _ => by simp [fpathLt]
  | _ :: _, [], h => by simp [fpathLt] at h
  | x :: xs, y :: ys, h => by
    simp only [fpathLt] at h ⊢
    by_cases hx : lexLtCh x.data y.data = true
    · have hyx : lexLtCh y.data x.data = false := lexLtCh_asymm hx
      have hne : y ≠ x := by
        intro e; subst e; rw [hx] at hyx; cases hyx
      rw [if_neg (by simp [hyx]), if_neg hne]
    · by_cases hxy : x = y
      · rw [if_neg (by simp at hx; simp [hx]), if_pos hxy] at h
        rw [if_neg (by simp at hx; subst hxy; simp [hx]), if_pos hxy.symm]
        exact fpathLt_asymm h
      · rw [if_neg (by simp at hx; simp [hx]), if_neg hxy] at h
        cases h

theorem fpathLt_connex : ∀ {a b : FPath},
    fpathLt a b = false → fpathLt b a = false → a = b
  | [], [], _, _ => rfl
  | [], _ :: _, h, _ => by simp [fpathLt] at h
  | _ :: _, [], _, h => by simp [fpathLt] at h
  | x :: xs, y :: ys, h1, h2 => by
    simp only [fpathLt] at h1 h2
    by_cases hx : lexLtCh x.data y.data = true
    · rw [if_pos hx] at h1; cases h1
    · by_cases hy : lexLtCh y.data x.data = true
      · rw [if_pos hy] at h2; cases h2
      · simp only [Bool.not_eq_true] at hx hy
        have hxy : x = y := String.ext (lexLtCh_connex hx hy)
        rw [if_neg (by simp [hx]), if_pos hxy] at h1
        rw [if_neg (by simp [hy]), if_pos hxy.symm] at h2
        rw [hxy, fpathLt_connex h1 h2]

theorem fpathLt_trans : ∀ {a b c : FPath},
    fpathLt a b = true → fpathLt b c = true → fpathLt a c = true
  | [], [], _, h, _ => by simp [fpathLt] at h
  | [], _ :: _, [], _, h => by simp [fpathLt] at h
  | [], _ :: _, _ :: _, _, _ => by simp [fpathLt]
  | _ :: _, [], _, h, _ => by simp [fpathLt] at h
  | _ :: _, _ :: _, [], _, h => by simp [fpathLt] at h
  | x :: xs, y :: ys, z :: zs, h1, h2 => by
    simp only [fpathLt] at h1 h2 ⊢
    by_cases hxy : lexLtCh x.data y.data = true
    · by_cases hyz : lexLtCh y.data z.data = true
      · rw [if_pos (lexLtCh_trans hxy hyz)]
      · by_cases hyz2 : y = z
        · rw [if_pos (hyz2 ▸ hxy)]
        · rw [if_neg (by simp at hyz; simp [hyz]), if_neg hyz2] at h2; cases h2
    · by_cases hxy2 : x = y
      · rw [if_neg (by simp at hxy; simp [hxy]), if_pos hxy2] at h1
        by_cases hyz : lexLtCh y.data z.data = true
        · rw [if_pos (hxy2 ▸ hyz)]
        · by_cases hyz2 : y = z
          · have hxz : x = z := hxy2.trans hyz2
            rw [if_neg (by subst hxz hxy2; simp at hxy; simp [hxy]), if_pos hxz]
            rw [if_neg (by simp at hyz; simp [hyz]), if_pos hyz2] at h2
            exact fpathLt_trans h1 h2
          · rw [if_neg (by simp at hyz; simp [hyz]), if_neg hyz2] at h2; cases h2
      · rw [if_neg (by simp at hxy; simp [hxy]), if_neg hxy2] at h1; cases h1

/-- Transitivity of a negated strict order, given connexity and
transitivity of the order itself. -/
theorem nltTrans {κ : Type} {ltk : κ → κ → Bool}
    (hconn : ∀ x y, ltk x y = false → ltk y x = false → x = y)
    (htr : ∀ x y z, ltk x y = true → ltk y z = true → ltk x z = true)
    {x y z : κ} (h1 : ltk y x = false) (h2 : ltk z y = false) : ltk z x = false := by
  by_contra h
  simp only [Bool.not_eq_false] at h
  by_cases hyz : ltk y z = true
  · rw [htr y z x hyz h] at h1; cases h1
  · have := hconn y z (by simpa using hyz) h2
    subst this
    rw [h] at h1; cases h1

/-! ### Store lemmas -/

/-- The store invariant of §4.2: at most one row per image path (the code
maintains it by always checking `existing` before inserting). -/
def StoreOk (store : Store) : Prop :=
  store.Pairwise (fun a b => a.image_path ≠ b.image_path)

theorem annDeleteFirst_cons (a : AnnRec) (rest : Store) (p : String) :
    annDeleteFirst (a :: rest) p =
      if a.image_path == p then rest else a :: annDeleteFirst rest p := rfl

theorem annFind_some_path {store : Store} {p : String} {a : AnnRec}
    (h : annFind store p = some a) : a.image_path = p := by
  unfold annFind at h
  exact beq_iff_eq.mp (@List.find?_some AnnRec (fun b => b.image_path == p) a store h)

theorem annFind_update_self {store : Store} {p : String} {f : AnnRec → AnnRec}
    (hf : ∀ a, (f a).image_path = a.image_path) :
    annFind (annUpdateFirst store p f) p = (annFind store p).map f := by
  induction store with
  | nil => rfl
  | cons a rest ih =>
    by_cases h : (a.image_path == p) = true
    · have hfa : ((f a).image_path == p) = true := by
        rw [beq_iff_eq, hf]; exact beq_iff_eq.mp h
      unfold annUpdateFirst
      rw [if_pos h]
      unfold annFind
      simp only [List.find?_cons, h, hfa]
      rfl
    · unfold annUpdateFirst
      rw [if_neg h]
      unfold annFind
      simp only [List.find?_cons, Bool.eq_false_iff.mpr h]
      exact ih

theorem annFind_append_of_none {store l : Store} {p : String}
    (h : annFind store p = none) : annFind (store ++ l) p = annFind l p := by
  unfold annFind at *
  rw [List.find?_append, h, Option.none_or]

theorem annDeleteFirst_append_of_none {store l : Store} {p : String}
    (h : annFind store p = none) :
    annDeleteFirst (store ++ l) p = store ++ annDeleteFirst l p := by
  induction store with
  | nil => rfl
  | cons a rest ih =>
    have hcons := h
    unfold annFind at hcons
    simp only [List.find?_cons] at hcons
    by_cases ha : (a.image_path == p) = true
    · rw [ha] at hcons; cases hcons
    · rw [Bool.eq_false_iff.mpr ha] at hcons
      show annDeleteFirst (a :: (rest ++ l)) p = _
      rw [annDeleteFirst_cons, if_neg ha, ih hcons]
      rfl

theorem annDeleteFirst_of_none {store : Store} {p : String}
    (h : annFind store p = none) : annDeleteFirst store p = store := by
  induction store with
  | nil => rfl
  | cons a rest ih =>
    have hcons := h
    unfold annFind at hcons
    simp only [List.find?_cons] at hcons
    by_cases ha : (a.image_path == p) = true
    · rw [ha] at hcons; cases hcons
    · rw [Bool.eq_false_iff.mpr ha] at hcons
      rw [annDeleteFirst_cons, if_neg ha, ih hcons]

theorem annFind_deleteFirst_of_storeOk {store : Store} {p : String}
    (hok : StoreOk store) : annFind (annDeleteFirst store p) p = none := by
  induction store with
  | nil => rfl
  | cons a rest ih =>
    rcases List.pairwise_cons.mp hok with ⟨ha, hrest⟩
    rw [annDeleteFirst_cons]
    by_cases h : (a.image_path == p) = true
    · rw [if_pos h]
      unfold annFind
      rw [List.find?_eq_none]
      intro b hb hbp
      exact ha b hb ((beq_iff_eq.mp h) ▸ (beq_iff_eq.mp hbp) ▸ rfl)
    · rw [if_neg h]
      unfold annFind
      simp only [List.find?_cons, Bool.eq_false_iff.mpr h]
      exact ih hrest

theorem truncHist_getLast {h : List HistEntry} {e : HistEntry} {cap : Nat}
    (hcap : 1 ≤ cap) : (truncHist (h ++ [e]) cap).getLast? = some e := by
  unfold truncHist
  by_cases hl : (h ++ [e]).length > cap
  · rw [if_pos hl]
    rw [List.getLast?_drop, if_neg (by simp at hl ⊢; omega)]
    exact List.getLast?_concat h
  · rw [if_neg hl]
    exact List.getLast?_concat h

/-! ### State-frame lemmas for the current-image resolution -/

theorem gci_frame (images : List String) (store : Store) (st : AppState) :
    (get_current_image images store st).2.filter_unann = st.filter_unann ∧
    (get_current_image images store st).2.filter_rating = st.filter_rating ∧
    (get_current_image images store st).2.history = st.history ∧
    (get_current_image images store st).2.selected = st.selected ∧
    (get_current_image images store st).2.last_anchor = st.last_anchor := by
  unfold get_current_image
  repeat' split
  all_goals simp

theorem gci_nofilter (images : List String) (store : Store) (st : AppState)
    (h1 : st.filter_unann = false) (h2 : st.filter_rating = none) :
    (get_current_image images store st).2 = st := by
  unfold get_current_image
  rw [h1, h2]
  simp only [Bool.false_eq_true, if_false]
  repeat' split
  all_goals rfl

/-! ### Navigation-loop characterization -/

theorem navLoop_up {images : List String} {pred : String → Bool} :
    ∀ (fuel c : Nat), images.length ≤ fuel + (c + 1) →
      navLoop images pred 1 fuel (c : Int) =
        scanFrom (fun i => pred (images.getD i "")) (c + 1) images.length := by
  intro fuel
  induction fuel with
  | zero =>
    intro c hc
    have h0 : images.length - (c + 1) = 0 := by omega
    simp [navLoop, scanFrom, h0]
  | succ fuel ih =>
    intro c hc
    have hcast : (c : Int) + 1 = ((c + 1 : Nat) : Int) := by push_cast; ring
    show navLoop images pred 1 (fuel + 1) c = _
    unfold navLoop
    rw [hcast]
    by_cases hb : c + 1 < images.length
    · rw [if_pos ⟨by positivity, by exact_mod_cast hb⟩, Int.toNat_natCast]
      have hrange : images.length - (c + 1) = (images.length - (c + 2)) + 1 := by omega
      by_cases hp : pred (images.getD (c + 1) "") = true
      · rw [if_pos hp]
        unfold scanFrom
        rw [hrange, List.range'_succ]
        simp only [List.find?_cons, hp]
      · rw [if_neg hp, ih (c + 1) (by omega)]
        unfold scanFrom
        rw [hrange, List.range'_succ]
        simp only [List.find?_cons, Bool.eq_false_iff.mpr hp]
    · rw [if_neg (by push_cast; omega)]
      have h0 : images.length - (c + 1) = 0 := by omega
      simp [scanFrom, h0]

theorem navLoop_down {images : List String} {pred : String → Bool} :
    ∀ (c fuel : Nat), c ≤ fuel → c ≤ images.length →
      navLoop images pred (-1) fuel (c : Int) =
        ((List.range c).reverse).find? (fun i => pred (images.getD i "")) := by
  intro c
  induction c with
  | zero =>
    intro fuel _ _
    cases fuel with
    | zero => simp [navLoop]
    | succ f =>
      unfold navLoop
      rw [if_neg (by norm_num)]
      simp
  | succ c ih =>
    intro fuel h1 h2
    obtain ⟨f, rfl⟩ : ∃ f, fuel = f + 1 := ⟨fuel - 1, by omega⟩
    unfold navLoop
    have hcast : ((c + 1 : Nat) : Int) + (-1) = (c : Int) := by push_cast; ring
    rw [hcast]
    rw [if_pos ⟨by positivity, by exact_mod_cast (by omega : c < images.length)⟩,
      Int.toNat_natCast]
    have hrev : (List.range (c + 1)).reverse = c :: (List.range c).reverse := by
      rw [List.range_succ, List.reverse_append]
      rfl
    rw [hrev]
    by_cases hp : pred (images.getD c "") = true
    · rw [if_pos hp]
      simp only [List.find?_cons, hp]
    · rw [if_neg hp, ih f (by omega) (by omega)]
      simp only [List.find?_cons, Bool.eq_false_iff.mpr hp]

/-- The in-bounds positions a directional `navigate` step visits, in visit
order: upward from `idx + 1` to the end, or downward from `idx - 1` to 0
(§4.3: no wraparound during directional stepping). -/
def stepCandidates (idx len : Nat) (d : Int) : List Nat :=
  if d = 1 then List.range' (idx + 1) (len - (idx + 1)) else (List.range idx).reverse

/-! ### First-match predicates (§4.3 scan resolution) -/

/-- `j` is the first index in `[a, b)` satisfying `pred`. -/
def IsFirstMatch (pred : Nat → Bool) (a b j : Nat) : Prop :=
  a ≤ j ∧ j < b ∧ pred j = true ∧ ∀ k, k < j → a ≤ k → pred k = false

/-- No index in `[a, b)` satisfies `pred`. -/
def NoMatch (pred : Nat → Bool) (a b : Nat) : Prop :=
  ∀ k, k < b → a ≤ k → pred k = false

instance (pred : Nat → Bool) (a b j : Nat) : Decidable (IsFirstMatch pred a b j) := by
  unfold IsFirstMatch
  infer_instance

instance (pred : Nat → Bool) (a b : Nat) : Decidable (NoMatch pred a b) := by
  unfold NoMatch
  infer_instance

theorem scanFrom_of_isFirstMatch {pred : Nat → Bool} {a b j : Nat} (hab : a ≤ b)
    (h : IsFirstMatch pred a b j) : scanFrom pred a b = some j :=
  (scanFrom_eq_some hab).mpr ⟨h.1, h.2.1, h.2.2.1, fun k hk1 hk2 => h.2.2.2 k hk2 hk1⟩

theorem scanFrom_of_noMatch {pred : Nat → Bool} {a b : Nat} (hab : a ≤ b)
    (h : NoMatch pred a b) : scanFrom pred a b = none :=
  (scanFrom_eq_none hab).mpr (fun k hk1 hk2 => h k hk2 hk1)

/-! ### Claims C1 and C2 -/

/-- A session state with the unannotated-only filter active and the cursor
at 0, used as a compact concrete input. -/
def stU0 : AppState := ⟨0, true, none, [], ∅, none⟩

/-- C1, counterexample.  The claim fails on the code in two ways.  First
conjunct pair: `"a"` has a stored rating of 0 (a marked-only row), so under
the claim's predicate ("no rated annotation: rating 0 or absent") it is
unannotated and should be the current image, but `get_current_image`
treats every row — rating 0 included — as annotated and reports no current
image.  Second pair: with the cursor at 0 and the match found by the
forward scan at position 1, the claim says the index is updated to 1, but
the code leaves it at 0 (only the wrap-around scan assigns the index). -/
theorem c1_counterexample :
    (get_ann_data [⟨"a", 0, "u", 5, true⟩] "a").rating = 0 ∧
    get_current_image ["a"] [⟨"a", 0, "u", 5, true⟩] stU0 = (none, stU0) ∧
    get_current_image ["a", "b"] [⟨"a", 2, "u", 5, false⟩] stU0 = (some "b", stU0) ∧
    stU0.current_index = 0 := by
  refine ⟨rfl, by decide, by decide, rfl⟩

/-- C1 (amended): `current_image()` under `filter = Unannotated` scans
forward from the cursor (inclusive) to the end for the first image with
**no annotation row at all** (a rating-0 row counts as annotated); a
forward hit is returned **without touching the cursor**; if the forward
scan fails it wraps, scanning from the start up to (exclusive) the cursor,
and only then is the cursor updated to the found position; if both scans
fail there is no current image.  The same algorithm with predicate
"some stored row has rating exactly `r`" serves `filter = Rating(r)`. -/
theorem c1_current_image_scan (images : List String) (store : Store)
    (st : AppState) (hidx : st.current_index ≤ images.length) :
    (st.filter_unann = true →
      (∀ j, IsFirstMatch (fun i => !(isAnnotatedPath store (images.getD i "")))
          st.current_index images.length j →
        get_current_image images store st = (some (images.getD j ""), st)) ∧
      (∀ j, NoMatch (fun i => !(isAnnotatedPath store (images.getD i "")))
          st.current_index images.length →
        IsFirstMatch (fun i => !(isAnnotatedPath store (images.getD i "")))
          0 st.current_index j →
        get_current_image images store st
          = (some (images.getD j ""), { st with current_index := j })) ∧
      (NoMatch (fun i => !(isAnnotatedPath store (images.getD i "")))
          st.current_index images.length →
        NoMatch (fun i => !(isAnnotatedPath store (images.getD i "")))
          0 st.current_index →
        get_current_image images store st = (none, st))) ∧
    (∀ r, st.filter_unann = false → st.filter_rating = some r →
      (∀ j, IsFirstMatch (fun i => hasRatingPath store r (images.getD i ""))
          st.current_index images.length j →
        get_current_image images store st = (some (images.getD j ""), st)) ∧
      (∀ j, NoMatch (fun i => hasRatingPath store r (images.getD i ""))
          st.current_index images.length →
        IsFirstMatch (fun i => hasRatingPath store r (images.getD i ""))
          0 st.current_index j →
        get_current_image images store st
          = (some (images.getD j ""), { st with current_index := j })) ∧
      (NoMatch (fun i => hasRatingPath store r (images.getD i ""))
          st.current_index images.length →
        NoMatch (fun i => hasRatingPath store r (images.getD i ""))
          0 st.current_index →
        get_current_image images store st = (none, st))) := by
  by_cases hemp : images.isEmpty = true
  · have hlen : images.length = 0 := by
      cases images with
      | nil => rfl
      | cons a t => cases hemp
    have hiz : st.current_index = 0 := by omega
    refine ⟨fun hU => ⟨?_, ?_, ?_⟩, fun r hU hR => ⟨?_, ?_, ?_⟩⟩
    · intro j hj; exact absurd hj.2.1 (by omega)
    · intro j _ hj; exact absurd hj.2.1 (by omega)
    · intro _ _; unfold get_current_image; rw [if_pos hemp]
    · intro j hj; exact absurd hj.2.1 (by omega)
    · intro j _ hj; exact absurd hj.2.1 (by omega)
    · intro _ _; unfold get_current_image; rw [if_pos hemp]
  · refine ⟨fun hU => ⟨?_, ?_, ?_⟩, fun r hU hR => ⟨?_, ?_, ?_⟩⟩
    · intro j hj
      unfold get_current_image
      rw [if_neg hemp, if_pos hU, scanFrom_of_isFirstMatch hidx hj]
    · intro j hno hj
      unfold get_current_image
      rw [if_neg hemp, if_pos hU, scanFrom_of_noMatch hidx hno,
        scanFrom_of_isFirstMatch (Nat.zero_le _) hj]
    · intro hno1 hno2
      unfold get_current_image
      rw [if_neg hemp, if_pos hU, scanFrom_of_noMatch hidx hno1,
        scanFrom_of_noMatch (Nat.zero_le _) hno2]
    · intro j hj
      unfold get_current_image
      rw [if_neg hemp, if_neg (by simp [hU]), hR]
      dsimp only
      rw [scanFrom_of_isFirstMatch hidx hj]
    · intro j hno hj
      unfold get_current_image
      rw [if_neg hemp, if_neg (by simp [hU]), hR]
      dsimp only
      rw [scanFrom_of_noMatch hidx hno,
        scanFrom_of_isFirstMatch (Nat.zero_le _) hj]
    · intro hno1 hno2
      unfold get_current_image
      rw [if_neg hemp, if_neg (by simp [hU]), hR]
      dsimp only
      rw [scanFrom_of_noMatch hidx hno1,
        scanFrom_of_noMatch (Nat.zero_le _) hno2]

/-- C1, witness: catalog `[a, b, c]`, only `c` annotated, cursor at 2 with
the unannotated filter on: the forward scan fails at `c`, the wrap scan
finds `a` at position 0, and the cursor is updated to 0. -/
theorem c1_current_image_scan_witness :
    get_current_image ["a", "b", "c"] [⟨"c", 1, "u", 0, false⟩]
        ⟨2, true, none, [], ∅, none⟩
      = (some "a", ⟨0, true, none, [], ∅, none⟩) := by
  have h := c1_current_image_scan ["a", "b", "c"] [⟨"c", 1, "u", 0, false⟩]
    ⟨2, true, none, [], ∅, none⟩ (by decide)
  exact (h.1 rfl).2.1 0 (by decide) (by decide)

/-- C2: `navigate(direction)` for `direction = ±1` from an in-bounds
cursor.  Under an active filter the cursor moves to the first position in
the direction of travel (no wraparound) whose image satisfies the filter
predicate — the bounded attempt counter never exhausts before the catalog
boundary — and stays put when the boundary is reached without a match.
Under no filter the cursor moves by `direction` exactly when the result
stays in bounds. -/
theorem c2_navigate (images : List String) (store : Store) (st : AppState)
    (d : Int) (hidx : st.current_index < images.length) (hd : d = 1 ∨ d = -1) :
    navigate images store st d =
      if st.filter_unann then
        match (stepCandidates st.current_index images.length d).find?
            (fun i => !(isAnnotatedPath store (images.getD i ""))) with
        | some j => { st with current_index := j }
        | none => st
      else
        match st.filter_rating with
        | some r =>
          match (stepCandidates st.current_index images.length d).find?
              (fun i => hasRatingPath store r (images.getD i "")) with
          | some j => { st with current_index := j }
          | none => st
        | none =>
          if 0 ≤ (st.current_index : Int) + d ∧
              (st.current_index : Int) + d < (images.length : Int)
          then { st with current_index := ((st.current_index : Int) + d).toNat }
          else st := by
  by_cases hU : st.filter_unann = true
  · simp only [navigate, hU, if_true]
    rcases hd with rfl | rfl
    · rw [@navLoop_up images (fun p => !(isAnnotatedPath store p))
        images.length st.current_index (by omega)]
      rfl
    · rw [@navLoop_down images (fun p => !(isAnnotatedPath store p))
        st.current_index images.length (by omega) (by omega)]
      rfl
  · have hU' : st.filter_unann = false := by
      revert hU; cases st.filter_unann <;> simp
    rcases hR : st.filter_rating with _ | r
    · simp only [navigate, hU', hR, Bool.false_eq_true, if_false]
    · simp only [navigate, hU', hR, Bool.false_eq_true, if_false]
      rcases hd with rfl | rfl
      · rw [@navLoop_up images (fun p => hasRatingPath store r p)
          images.length st.current_index (by omega)]
        rfl
      · rw [@navLoop_down images (fun p => hasRatingPath store r p)
          st.current_index images.length (by omega) (by omega)]
        rfl

/-- C2, witness: catalog `[a, b, c]`, `b` annotated, unannotated filter
on, cursor 0: `navigate(+1)` skips `b` and lands on `c` at index 2. -/
theorem c2_navigate_witness :
    navigate ["a", "b", "c"] [⟨"b", 1, "u", 0, false⟩] stU0 1
      = ⟨2, true, none, [], ∅, none⟩ := by
  have h := c2_navigate ["a", "b", "c"] [⟨"b", 1, "u", 0, false⟩] stU0 1
    (by decide) (Or.inl rfl)
  rw [h]
  decide

/-! ### Claim C5 -/

theorem leRatingAsc_trans (a b c : String × Int × Bool)
    (h1 : leRatingAsc a b = true) (h2 : leRatingAsc b c = true) :
    leRatingAsc a c = true := by
  simp only [leRatingAsc, Bool.not_eq_true'] at h1 h2 ⊢
  exact nltTrans (fun x y h h' => tupLtIC_connex h h') (fun x y z h h' => tupLtIC_trans h h') h1 h2

theorem leRatingAsc_total (a b : String × Int × Bool) :
    leRatingAsc a b = true ∨ leRatingAsc b a = true := by
  simp only [leRatingAsc, Bool.not_eq_true']
  by_cases h : tupLtIC (keyRatingName b) (keyRatingName a) = true
  · exact Or.inr (tupLtIC_asymm h)
  · exact Or.inl (by simpa using h)

theorem leRatingDesc_trans (a b c : String × Int × Bool)
    (h1 : leRatingDesc a b = true) (h2 : leRatingDesc b c = true) :
    leRatingDesc a c = true := by
  simp only [leRatingDesc, Bool.not_eq_true'] at h1 h2 ⊢
  exact nltTrans (fun x y h h' => tupLtIC_connex h h') (fun x y z h h' => tupLtIC_trans h h') h2 h1

theorem leRatingDesc_total (a b : String × Int × Bool) :
    leRatingDesc a b = true ∨ leRatingDesc b a = true := by
  simp only [leRatingDesc, Bool.not_eq_true']
  by_cases h : tupLtIC (keyRatingName a) (keyRatingName b) = true
  · exact Or.inr (tupLtIC_asymm h)
  · exact Or.inl (by simpa using h)

theorem leMarkedFirst_trans (a b c : String × Int × Bool)
    (h1 : leMarkedFirst a b = true) (h2 : leMarkedFirst b c = true) :
    leMarkedFirst a c = true := by
  simp only [leMarkedFirst, Bool.not_eq_true'] at h1 h2 ⊢
  exact nltTrans (fun x y h h' => tupLtBC_connex h h') (fun x y z h h' => tupLtBC_trans h h') h1 h2

theorem leMarkedFirst_total (a b : String × Int × Bool) :
    leMarkedFirst a b = true ∨ leMarkedFirst b a = true := by
  simp only [leMarkedFirst, Bool.not_eq_true']
  by_cases h : tupLtBC (keyMarkedName b) (keyMarkedName a) = true
  · exact Or.inr (tupLtBC_asymm h)
  · exact Or.inl (by simpa using h)

theorem filteredItems_rating_asc (images : List String) (store : Store)
    (q ratingQ showQ markedQ : String) :
    filteredItems images store q ratingQ showQ markedQ "rating_asc"
      = pySort leRatingAsc (browseFilter images store q ratingQ showQ markedQ) := rfl

theorem filteredItems_rating_desc (images : List String) (store : Store)
    (q ratingQ showQ markedQ : String) :
    filteredItems images store q ratingQ showQ markedQ "rating_desc"
      = pySort leRatingDesc (browseFilter images store q ratingQ showQ markedQ) := rfl

theorem filteredItems_marked_first (images : List String) (store : Store)
    (q ratingQ showQ markedQ : String) :
    filteredItems images store q ratingQ showQ markedQ "marked_first"
      = pySort leMarkedFirst (browseFilter images store q ratingQ showQ markedQ) := rfl

/-- C5, counterexample.  Two items with the same rating 1, sorted with
`rating_desc`: the code emits `b.jpg` before `a.jpg` — the `reverse=True`
of the Python sort flips the `(rating, name)` key as a whole, so equal
ratings are tie-broken by name **descending**, while the claim demands
name ascending in all rating/marked sort modes. -/
theorem c5_counterexample :
    filteredItems ["a.jpg", "b.jpg"]
        [⟨"a.jpg", 1, "u", 0, false⟩, ⟨"b.jpg", 1, "u", 0, false⟩]
        "" "" "" "" "rating_desc"
      = [("b.jpg", 1, false), ("a.jpg", 1, false)] ∧
    lexLtCh (lowerData "a.jpg") (lowerData "b.jpg") = true := by
  refine ⟨by decide, by decide⟩

/-- C5 (amended): in the browse query, ties under `rating_asc` and
`marked_first` (equal rating, resp. equal marked flag) are broken by name
ascending case-insensitively, but ties under `rating_desc` are broken by
name **descending** case-insensitively (the whole sort key is reversed). -/
theorem c5_sort_tiebreak (images : List String) (store : Store)
    (q ratingQ showQ markedQ : String) :
    ((filteredItems images store q ratingQ showQ markedQ "rating_asc").Pairwise
      (fun t u => t.2.1 = u.2.1 →
        lexLtCh (lowerData t.1) (lowerData u.1) = true ∨
          lowerData t.1 = lowerData u.1)) ∧
    ((filteredItems images store q ratingQ showQ markedQ "rating_desc").Pairwise
      (fun t u => t.2.1 = u.2.1 →
        lexLtCh (lowerData u.1) (lowerData t.1) = true ∨
          lowerData u.1 = lowerData t.1)) ∧
    ((filteredItems images store q ratingQ showQ markedQ "marked_first").Pairwise
      (fun t u => t.2.2 = u.2.2 →
        lexLtCh (lowerData t.1) (lowerData u.1) = true ∨
          lowerData t.1 = lowerData u.1)) := by
  refine ⟨?_, ?_, ?_⟩
  · rw [filteredItems_rating_asc]
    refine (pairwise_pySort leRatingAsc_trans leRatingAsc_total _).imp ?_
    intro t u h hr
    simp only [leRatingAsc, Bool.not_eq_true'] at h
    unfold tupLtIC keyRatingName at h
    simp only at h
    rw [if_neg (by rw [hr]; exact lt_irrefl _), if_pos hr.symm] at h
    by_cases hlt : lexLtCh (lowerData t.1) (lowerData u.1) = true
    · exact Or.inl hlt
    · exact Or.inr (lexLtCh_connex (by simpa using hlt) h)
  · rw [filteredItems_rating_desc]
    refine (pairwise_pySort leRatingDesc_trans leRatingDesc_total _).imp ?_
    intro t u h hr
    simp only [leRatingDesc, Bool.not_eq_true'] at h
    unfold tupLtIC keyRatingName at h
    simp only at h
    rw [if_neg (by rw [hr]; exact lt_irrefl _), if_pos hr] at h
    by_cases hlt : lexLtCh (lowerData u.1) (lowerData t.1) = true
    · exact Or.inl hlt
    · exact Or.inr (lexLtCh_connex (by simpa using hlt) h)
  · rw [filteredItems_marked_first]
    refine (pairwise_pySort leMarkedFirst_trans leMarkedFirst_total _).imp ?_
    intro t u h hm
    simp only [leMarkedFirst, Bool.not_eq_true'] at h
    unfold tupLtBC keyMarkedName at h
    simp only at h
    rw [if_neg (by rw [hm]; exact lt_irrefl _), if_pos (by rw [hm])] at h
    by_cases hlt : lexLtCh (lowerData t.1) (lowerData u.1) = true
    · exact Or.inl hlt
    · exact Or.inr (lexLtCh_connex (by simpa using hlt) h)

/-! ### Claim C6 -/

/-- C6, counterexample.  One filtered item, page size 60, requested page
"2": `total_pages = 1`, so the claim demands clamping to page 1 and the
single-item last page; the code returns the empty slice
`items[60:120]` instead (the effective page stays 2 — no upper clamp). -/
theorem c6_counterexample :
    (render_browser_grid ["a.jpg"] [] "" "" "" "" "name" "2" 60).1 = [] ∧
    (render_browser_grid ["a.jpg"] [] "" "" "" "" "name" "2" 60).2.2.1 = 1 ∧
    (render_browser_grid ["a.jpg"] [] "" "" "" "" "name" "2" 60).2.2.2 = 2 ∧
    filteredItems ["a.jpg"] [] "" "" "" "" "name" ≠ [] := by
  refine ⟨by decide, by decide, by decide, by decide⟩

/-- C6 (amended): the effective page is 1-based and clamped **below** only
(`max(1, ·)`, with 1 on a parse failure), and `total_pages ≥ 1` even for
an empty result; there is no upper clamp — whenever the requested page
exceeds `total_pages` the returned page slice is empty (not the last
page), while any effective page whose slice start lies inside the result
yields a nonempty page. -/
theorem c6_pagination (images : List String) (store : Store)
    (q ratingQ showQ markedQ sortQ page : String) (per_page : Nat)
    (hpp : 0 < per_page) :
    1 ≤ (render_browser_grid images store q ratingQ showQ markedQ sortQ page per_page).2.2.2 ∧
    1 ≤ (render_browser_grid images store q ratingQ showQ markedQ sortQ page per_page).2.2.1 ∧
    ((render_browser_grid images store q ratingQ showQ markedQ sortQ page per_page).2.2.1 <
        (render_browser_grid images store q ratingQ showQ markedQ sortQ page per_page).2.2.2 →
      (render_browser_grid images store q ratingQ showQ markedQ sortQ page per_page).1 = []) ∧
    (((render_browser_grid images store q ratingQ showQ markedQ sortQ page per_page).2.2.2 - 1)
          * per_page <
        (render_browser_grid images store q ratingQ showQ markedQ sortQ page per_page).2.1 →
      (render_browser_grid images store q ratingQ showQ markedQ sortQ page per_page).1 ≠ []) := by
  unfold render_browser_grid
  dsimp only
  set pi := (match pyIntParse (if page == "" then "1" else page) with
    | some n => (max 1 n).toNat
    | none => 1) with hpi
  set items := filteredItems images store q ratingQ showQ markedQ sortQ with hitems
  have h1 : 1 ≤ pi := by
    rw [hpi]
    rcases pyIntParse (if page == "" then "1" else page) with _ | n
    · exact Nat.le_refl 1
    · show 1 ≤ (max 1 n).toNat
      omega
  refine ⟨h1, le_max_left _ _, ?_, ?_⟩
  · intro hover
    have hceil : items.length ≤ per_page * ((items.length + per_page - 1) / per_page) := by
      have hdm := Nat.div_add_mod (items.length + per_page - 1) per_page
      have hmod : (items.length + per_page - 1) % per_page < per_page :=
        Nat.mod_lt _ hpp
      omega
    have hstart : items.length ≤ (pi - 1) * per_page := by
      have hge : (items.length + per_page - 1) / per_page ≤ pi - 1 := by omega
      calc items.length
          ≤ per_page * ((items.length + per_page - 1) / per_page) := hceil
        _ = ((items.length + per_page - 1) / per_page) * per_page := Nat.mul_comm _ _
        _ ≤ (pi - 1) * per_page := Nat.mul_le_mul_right _ hge
    rw [List.drop_eq_nil_of_le hstart, List.take_nil]
  · intro hin
    refine List.length_pos.mp ?_
    rw [List.length_take, List.length_drop]
    have : 0 < items.length - (pi - 1) * per_page := by omega
    omega

/-- C6, witness: instantiating at page "1", page size 60, catalog
`[a.jpg]`: the effective page and total pages are both at least 1, an
over-range page yields the empty slice, an in-range start a nonempty one. -/
theorem c6_pagination_witness :
    1 ≤ (render_browser_grid ["a.jpg"] [] "" "" "" "" "name" "1" 60).2.2.2 ∧
    1 ≤ (render_browser_grid ["a.jpg"] [] "" "" "" "" "name" "1" 60).2.2.1 ∧
    ((render_browser_grid ["a.jpg"] [] "" "" "" "" "name" "1" 60).2.2.1 <
        (render_browser_grid ["a.jpg"] [] "" "" "" "" "name" "1" 60).2.2.2 →
      (render_browser_grid ["a.jpg"] [] "" "" "" "" "name" "1" 60).1 = []) ∧
    (((render_browser_grid ["a.jpg"] [] "" "" "" "" "name" "1" 60).2.2.2 - 1) * 60 <
        (render_browser_grid ["a.jpg"] [] "" "" "" "" "name" "1" 60).2.1 →
      (render_browser_grid ["a.jpg"] [] "" "" "" "" "name" "1" 60).1 ≠ []) :=
  c6_pagination ["a.jpg"] [] "" "" "" "" "name" "1" 60 (by decide)

/-! ### Claim C7 -/

/-- A session state with no filter and the cursor at 0. -/
def stN0 : AppState := ⟨0, false, none, [], ∅, none⟩

/-- C7: rating and marking are mutually frame-preserving on an image with
an existing row.  `rate` rewrites the row's rating (and timestamp) but
returns the stored `marked` flag unchanged; `mark` toggles the `marked`
flag but returns the stored rating unchanged. -/
theorem c7_rate_mark_frame (numClasses maxHistory : Nat) (images : List String)
    (store : Store) (st : AppState) (r : Int) (now : Nat) (user : String)
    (img : String) (a : AnnRec) (hr1 : 1 ≤ r) (hr2 : r ≤ (numClasses : Int))
    (hres : (get_current_image images store st).1 = some img)
    (hfind : annFind store img = some a) :
    get_ann_data (rate numClasses maxHistory images store st r now user).2 img
      = ⟨r, a.marked⟩ ∧
    get_ann_data (mark images store st now user).2 img = ⟨a.rating, !a.marked⟩ := by
  have hpair : get_current_image images store st
      = (some img, (get_current_image images store st).2) := by
    rw [← hres]
  constructor
  · unfold rate
    rw [if_neg (by omega), hpair]
    dsimp only
    rw [hfind]
    dsimp only
    unfold get_ann_data
    rw [@annFind_update_self store img
      (fun a => { a with rating := r, timestamp := now }) (fun b => rfl), hfind]
    rfl
  · unfold mark
    rw [hpair]
    dsimp only
    rw [hfind]
    dsimp only
    unfold get_ann_data
    rw [@annFind_update_self store img
      (fun b => { b with marked := !b.marked }) (fun b => rfl), hfind]
    rfl

/-- C7, witness: a row for `a` with rating 2, marked: rating it 3 keeps
the mark; toggling the mark keeps rating 2. -/
theorem c7_rate_mark_frame_witness :
    get_ann_data (rate 5 10 ["a"] [⟨"a", 2, "u", 0, true⟩] stN0 3 7 "u").2 "a"
      = ⟨3, true⟩ ∧
    get_ann_data (mark ["a"] [⟨"a", 2, "u", 0, true⟩] stN0 7 "u").2 "a"
      = ⟨2, false⟩ :=
  c7_rate_mark_frame 5 10 ["a"] [⟨"a", 2, "u", 0, true⟩] stN0 3 7 "u" "a"
    ⟨"a", 2, "u", 0, true⟩ (by decide) (by decide) (by decide) (by decide)

/-! ### Claim C8 -/

theorem findIdx?_acc_some {p : String → Bool} :
    ∀ (l : List String) (s j : Nat), List.findIdx? p l s = some j →
      s ≤ j ∧ j - s < l.length ∧ p (l.getD (j - s) "") = true := by
  intro l
  induction l with
  | nil => intro s j h; cases h
  | cons x xs ih =>
    intro s j h
    rw [List.findIdx?_cons] at h
    by_cases hp : p x = true
    · rw [if_pos hp] at h
      rw [Option.some.injEq] at h
      subst h
      exact ⟨Nat.le_refl _, by simp, by simpa using hp⟩
    · rw [if_neg hp] at h
      rcases ih (s + 1) j h with ⟨h1, h2, h3⟩
      refine ⟨by omega, by simp; omega, ?_⟩
      have hjs : j - s = (j - (s + 1)) + 1 := by omega
      rw [hjs]
      simpa using h3

theorem indexOf?_some {l : List String} {a : String} {i : Nat}
    (h : l.indexOf? a = some i) : i < l.length ∧ l.getD i "" = a := by
  have hh : List.findIdx? (fun b => b == a) l 0 = some i := h
  rcases findIdx?_acc_some l 0 i hh with ⟨-, h2, h3⟩
  simp only [Nat.sub_zero] at h2 h3
  exact ⟨h2, beq_iff_eq.mp h3⟩

theorem mem_foldl_insert (l : List String) (s : Finset String) (x : String) :
    x ∈ l.foldl (fun acc y => insert y acc) s ↔ x ∈ s ∨ x ∈ l := by
  induction l generalizing s with
  | nil => simp
  | cons y t ih =>
    show x ∈ t.foldl (fun acc y => insert y acc) (insert y s) ↔ _
    rw [ih]
    simp [Finset.mem_insert, List.mem_cons]
    tauto

theorem mem_drop_take {l : List String} {lo n : Nat} {x : String} :
    x ∈ (l.drop lo).take n ↔
      ∃ k, lo ≤ k ∧ k < lo + n ∧ k < l.length ∧ l.getD k "" = x := by
  constructor
  · intro h
    rcases List.mem_iff_getElem.mp h with ⟨j, hj, hx⟩
    have hj1 : j < n := by
      have := hj
      rw [List.length_take] at this
      omega
    have hj2 : j < (l.drop lo).length := by
      have := hj
      rw [List.length_take] at this
      omega
    have hj3 : lo + j < l.length := by
      have := hj2
      rw [List.length_drop] at this
      omega
    refine ⟨lo + j, by omega, by omega, hj3, ?_⟩
    rw [List.getD_eq_getElem l "" hj3, ← hx, List.getElem_take, List.getElem_drop]
  · rintro ⟨k, hk1, hk2, hk3, hk4⟩
    have hlen : k - lo < (l.drop lo).length := by
      rw [List.length_drop]; omega
    have hlen2 : k - lo < ((l.drop lo).take n).length := by
      rw [List.length_take, List.length_drop]; omega
    refine List.mem_iff_getElem.mpr ⟨k - lo, hlen2, ?_⟩
    rw [List.getElem_take, List.getElem_drop, ← List.getD_eq_getElem l ""
      (by omega : lo + (k - lo) < l.length)]
    rw [show lo + (k - lo) = k from by omega]
    exact hk4

/-- C8: shift-click range selection.  With an existing non-empty anchor
`a` and a shift-click on `image`, when both are present in the current
browse ordering (first occurrences at `i1`, `i2`) the new selection is
exactly the old one plus every entry of `order` between the two positions
inclusive, in either orientation, and the anchor becomes `image`; when
either endpoint is missing from the ordering the click degrades to a plain
membership toggle of `image` (which also re-anchors on `image`). -/
theorem c8_range_select (st : AppState) (image a : String) (order : List String)
    (ha : st.last_anchor = some a) (hat : a ≠ "") (himg : image ≠ "") :
    (∀ i1 i2, order.indexOf? a = some i1 → order.indexOf? image = some i2 →
      (toggle_select st image true order).last_anchor = some image ∧
      (∀ x, x ∈ (toggle_select st image true order).selected ↔
        x ∈ st.selected ∨
          ∃ k, min i1 i2 ≤ k ∧ k ≤ max i1 i2 ∧ order.getD k "" = x)) ∧
    (order.indexOf? a = none ∨ order.indexOf? image = none →
      toggle_select st image true order =
        { st with
            selected := if image ∈ st.selected then st.selected.erase image
                        else insert image st.selected,
            last_anchor := some image }) := by
  have hif : ¬((image == "") = true) := by simp [himg]
  have htruthy : (true && pyTruthyStr st.last_anchor) = true := by
    rw [ha]
    simp [pyTruthyStr, hat]
  constructor
  · intro i1 i2 h1 h2
    unfold toggle_select
    rw [if_neg hif, if_pos htruthy, ha]
    dsimp only [Option.getD_some]
    rw [h1, h2]
    dsimp only
    refine ⟨rfl, fun x => ?_⟩
    rw [mem_foldl_insert, mem_drop_take]
    have hlen1 := (indexOf?_some h1).1
    have hlen2 := (indexOf?_some h2).1
    constructor
    · rintro (hx | ⟨k, hk1, hk2, hk3, hk4⟩)
      · exact Or.inl hx
      · exact Or.inr ⟨k, hk1, by omega, hk4⟩
    · rintro (hx | ⟨k, hk1, hk2, hk4⟩)
      · exact Or.inl hx
      · exact Or.inr ⟨k, hk1, by omega, by omega, hk4⟩
  · intro hcase
    unfold toggle_select
    rw [if_neg hif, if_pos htruthy, ha]
    dsimp only [Option.getD_some]
    rcases hcase with h | h
    · rw [h]
    · rcases h1 : order.indexOf? a with _ | i1
      · rfl
      · rw [h]

/-- C8, witness: anchor `c`, shift-click `a` over the ordering
`[a, b, c]`: the whole interval `{a, b, c}` is added to the selection
and the anchor moves to `a`. -/
theorem c8_range_select_witness :
    (toggle_select ⟨0, false, none, [], {"c"}, some "c"⟩ "a" true
        ["a", "b", "c"]).last_anchor = some "a" ∧
    (∀ x, x ∈ (toggle_select ⟨0, false, none, [], {"c"}, some "c"⟩ "a" true
        ["a", "b", "c"]).selected ↔
      x ∈ ({"c"} : Finset String) ∨
        ∃ k, min 2 0 ≤ k ∧ k ≤ max 2 0 ∧ ["a", "b", "c"].getD k "" = x) :=
  (c8_range_select ⟨0, false, none, [], {"c"}, some "c"⟩ "a" "c" ["a", "b", "c"]
    rfl (by decide) (by decide)).1 2 0 (by decide) (by decide)

/-! ### Claim C10 -/

/-- C10: undo of a `Delete` history entry.  The cursor is restored to the
entry's stored index in every case.  The annotation row is recreated only
when the saved bytes are present (truthy) and the file write succeeded
(and, additionally, only when the previous rating was positive); if the
bytes are absent or the write fails the store is untouched.  Any row the
undo adds carries `marked = false` and the fresh timestamp, regardless of
what the record's marked flag was before the deletion (the entry does not
even store it). -/
theorem c10_undo_delete (store : Store) (st : AppState) (e : HistEntry)
    (now : Nat) (user : String) (writeOk : Bool)
    (hlast : st.history.getLast? = some e) (hact : e.action = "delete") :
    (undo store st now user writeOk).1.current_index = e.index ∧
    (e.image_data = none ∨ writeOk = false →
      (undo store st now user writeOk).2 = store) ∧
    (∀ b, b ∈ (undo store st now user writeOk).2 → b ∉ store →
      b.marked = false ∧ b.timestamp = now ∧ b.rating = e.old_rating) ∧
    ((undo store st now user writeOk).2 ≠ store →
      (∃ bs, e.image_data = some bs ∧ bs ≠ []) ∧ writeOk = true ∧
        0 < e.old_rating) := by
  unfold undo
  rw [hlast]
  dsimp only
  rw [if_pos (by simp [hact] : (e.action == "delete") = true)]
  by_cases hb : pyTruthyBytes e.image_data = true
  · rw [if_pos hb]
    by_cases hw : writeOk = true
    · rw [if_pos hw]
      by_cases hr : e.old_rating > 0
      · rw [if_pos hr]
        refine ⟨rfl, ?_, ?_, ?_⟩
        · rintro (hd | hw')
          · rw [hd] at hb; cases hb
          · rw [hw'] at hw; cases hw
        · intro b h1 h2
          rcases List.mem_append.mp h1 with h | h
          · exact absurd h h2
          · rcases List.mem_singleton.mp h with rfl
            exact ⟨rfl, rfl, rfl⟩
        · intro _
          refine ⟨?_, hw, hr⟩
          rcases hdata : e.image_data with _ | bs
          · rw [hdata] at hb; cases hb
          · refine ⟨bs, rfl, ?_⟩
            rw [hdata] at hb
            simp only [pyTruthyBytes, Bool.not_eq_true'] at hb
            simpa using hb
      · rw [if_neg hr]
        exact ⟨rfl, fun _ => rfl, fun b h1 h2 => absurd h1 h2,
          fun hne => absurd rfl hne⟩
    · rw [if_neg hw]
      exact ⟨rfl, fun _ => rfl, fun b h1 h2 => absurd h1 h2,
        fun hne => absurd rfl hne⟩
  · rw [if_neg hb]
    exact ⟨rfl, fun _ => rfl, fun b h1 h2 => absurd h1 h2,
      fun hne => absurd rfl hne⟩

/-- C10, witness: a delete entry for `b` with previous rating 2, saved
bytes, successful rewrite: the cursor returns to index 1 and the only new
row is unmarked, freshly timestamped, rated 2. -/
theorem c10_undo_delete_witness :
    (undo [] ⟨0, false, none, [⟨"b", 2, 1, "delete", some [7]⟩], ∅, none⟩
        9 "u" true).1.current_index = 1 ∧
    ((⟨"b", 2, 1, "delete", some [7]⟩ : HistEntry).image_data = none ∨ true = false →
      (undo [] ⟨0, false, none, [⟨"b", 2, 1, "delete", some [7]⟩], ∅, none⟩
        9 "u" true).2 = []) ∧
    (∀ b, b ∈ (undo [] ⟨0, false, none, [⟨"b", 2, 1, "delete", some [7]⟩], ∅, none⟩
        9 "u" true).2 → b ∉ ([] : Store) →
      b.marked = false ∧ b.timestamp = 9 ∧ b.rating = 2) ∧
    ((undo [] ⟨0, false, none, [⟨"b", 2, 1, "delete", some [7]⟩], ∅, none⟩
        9 "u" true).2 ≠ [] →
      (∃ bs, (⟨"b", 2, 1, "delete", some [7]⟩ : HistEntry).image_data = some bs ∧
        bs ≠ []) ∧ true = true ∧ (0 : Int) < 2) :=
  c10_undo_delete [] ⟨0, false, none, [⟨"b", 2, 1, "delete", some [7]⟩], ∅, none⟩
    ⟨"b", 2, 1, "delete", some [7]⟩ 9 "u" true rfl rfl

/-! ### Claim C4 -/

/-- Cursor at 2 with the unannotated filter on; `b` and `c` are annotated,
so resolving the current image wraps to `a` at index 0. -/
def stC4 : AppState := ⟨2, true, none, [], ∅, none⟩

/-- C4, counterexample.  With the unannotated filter active and the cursor
at 2, resolving the current image wraps and moves the cursor to 0 before
the file delete is attempted; when the delete then raises, the handler
returns with the cursor at 0 — not "exactly as before the call" (2) as the
claim demands — although the annotation store is indeed untouched. -/
theorem c4_counterexample :
    (deleteOp 10 ["a", "b", "c"]
        [⟨"b", 1, "u", 0, false⟩, ⟨"c", 1, "u", 0, false⟩] stC4
        true true []).1.current_index = 0 ∧
    stC4.current_index = 2 ∧
    (deleteOp 10 ["a", "b", "c"]
        [⟨"b", 1, "u", 0, false⟩, ⟨"c", 1, "u", 0, false⟩] stC4
        true true []).2
      = [⟨"b", 1, "u", 0, false⟩, ⟨"c", 1, "u", 0, false⟩] := by
  refine ⟨by decide, rfl, by decide⟩

/-- C4 (amended): when the current image's file exists and deleting it
raises an I/O error, `delete` aborts: the annotation store is returned
unchanged (the record is not deleted), no undo entry is pushed, and the
selection, anchor and filters are untouched; the resulting session state
is exactly the state left by the current-image resolution — so the cursor
is unchanged whenever no filter is active, but may already have been
relocated by the wrap scan of an active filter. -/
theorem c4_delete_iofail (maxHistory : Nat) (images : List String)
    (store : Store) (st : AppState) (fileBytes : List Nat) (img : String)
    (hres : (get_current_image images store st).1 = some img) :
    deleteOp maxHistory images store st true true fileBytes
      = ((get_current_image images store st).2, store) ∧
    (get_current_image images store st).2.history = st.history ∧
    (get_current_image images store st).2.selected = st.selected ∧
    (get_current_image images store st).2.last_anchor = st.last_anchor ∧
    (get_current_image images store st).2.filter_unann = st.filter_unann ∧
    (get_current_image images store st).2.filter_rating = st.filter_rating ∧
    (st.filter_unann = false → st.filter_rating = none →
      (get_current_image images store st).2 = st) := by
  have hpair : get_current_image images store st
      = (some img, (get_current_image images store st).2) := by
    rw [← hres]
  have hframe := gci_frame images store st
  refine ⟨?_, hframe.2.2.1, hframe.2.2.2.1, hframe.2.2.2.2, hframe.1, hframe.2.1,
    fun h1 h2 => gci_nofilter images store st h1 h2⟩
  unfold deleteOp
  rw [hpair]
  dsimp only
  rw [if_pos (show (true && true) = true from rfl)]

/-- C4, witness: no filter active, catalog `[a]`, empty store: the failed
delete returns the session state and store exactly as before. -/
theorem c4_delete_iofail_witness :
    deleteOp 10 ["a"] [] stN0 true true []
      = ((get_current_image ["a"] [] stN0).2, []) ∧
    (get_current_image ["a"] [] stN0).2.history = stN0.history ∧
    (get_current_image ["a"] [] stN0).2.selected = stN0.selected ∧
    (get_current_image ["a"] [] stN0).2.last_anchor = stN0.last_anchor ∧
    (get_current_image ["a"] [] stN0).2.filter_unann = stN0.filter_unann ∧
    (get_current_image ["a"] [] stN0).2.filter_rating = stN0.filter_rating ∧
    (stN0.filter_unann = false → stN0.filter_rating = none →
      (get_current_image ["a"] [] stN0).2 = stN0) :=
  c4_delete_iofail 10 ["a"] [] stN0 [] "a" (by decide)

/-! ### Claim C3 -/

theorem path_mem_annUpdateFirst {store : Store} {p : String} {f : AnnRec → AnnRec}
    (hf : ∀ a, (f a).image_path = a.image_path) :
    ∀ {b : AnnRec}, b ∈ annUpdateFirst store p f →
      ∃ c ∈ store, b.image_path = c.image_path := by
  induction store with
  | nil => intro b h; cases h
  | cons a rest ih =>
    intro b h
    unfold annUpdateFirst at h
    by_cases ha : (a.image_path == p) = true
    · rw [if_pos ha] at h
      rcases List.mem_cons.mp h with rfl | h
      · exact ⟨a, List.mem_cons_self a rest, hf a⟩
      · exact ⟨b, List.mem_cons_of_mem a h, rfl⟩
    · rw [if_neg ha] at h
      rcases List.mem_cons.mp h with rfl | h
      · exact ⟨b, List.mem_cons_self b rest, rfl⟩
      · rcases ih h with ⟨c, hc, hcp⟩
        exact ⟨c, List.mem_cons_of_mem a hc, hcp⟩

theorem storeOk_annUpdateFirst {store : Store} {p : String} {f : AnnRec → AnnRec}
    (hf : ∀ a, (f a).image_path = a.image_path) (hok : StoreOk store) :
    StoreOk (annUpdateFirst store p f) := by
  induction store with
  | nil => exact hok
  | cons a rest ih =>
    rcases List.pairwise_cons.mp hok with ⟨ha, hrest⟩
    unfold annUpdateFirst
    by_cases h : (a.image_path == p) = true
    · rw [if_pos h]
      refine List.pairwise_cons.mpr ⟨?_, hrest⟩
      intro b hb
      rw [hf a]
      exact ha b hb
    · rw [if_neg h]
      refine List.pairwise_cons.mpr ⟨?_, ih hrest⟩
      intro b hb
      rcases path_mem_annUpdateFirst hf hb with ⟨c, hc, hcp⟩
      rw [hcp]
      exact ha c hc

/-- The net effect of `undo` on a non-`delete` (i.e. rate) history entry. -/
theorem undo_rate_cases (store : Store) (st : AppState) (e : HistEntry)
    (now : Nat) (user : String) (writeOk : Bool)
    (hlast : st.history.getLast? = some e)
    (hact : (e.action == "delete") = false) :
    undo store st now user writeOk =
      ({ st with history := st.history.dropLast, current_index := e.index },
       if e.old_rating == 0 then
         match annFind store e.image_name with
         | some _ => annDeleteFirst store e.image_name
         | none => store
       else
         match annFind store e.image_name with
         | some _ => annUpdateFirst store e.image_name
             (fun a => { a with rating := e.old_rating })
         | none => store) := by
  unfold undo
  rw [hlast]
  dsimp only
  rw [if_neg (by simp [hact])]

/-- The net effect of a successful `rate` call resolving to `img`. -/
theorem rate_eq (numClasses maxHistory : Nat) (images : List String)
    (store : Store) (st : AppState) (r : Int) (now : Nat) (user : String)
    (img : String) (hr : ¬(r < 1 ∨ r > (numClasses : Int)))
    (hres : (get_current_image images store st).1 = some img) :
    rate numClasses maxHistory images store st r now user =
      ({ (get_current_image images store st).2 with
          history := truncHist ((get_current_image images store st).2.history ++
            [⟨img, (get_ann_data store img).rating,
              (get_current_image images store st).2.current_index, "rate", none⟩])
            maxHistory },
       match annFind store img with
       | some _ => annUpdateFirst store img
           (fun a => { a with rating := r, timestamp := now })
       | none => store ++ [⟨img, r, user, now, false⟩]) := by
  have hpair : get_current_image images store st
      = (some img, (get_current_image images store st).2) := by
    rw [← hres]
  unfold rate
  rw [if_neg hr, hpair]

/-- C3 (amended): undo of a Rate entry.  Part one, the entry semantics:
the cursor returns to the stored index and the newest entry is popped;
when the stored previous rating is 0 the image's row is removed outright
(so a marked rating-0 row loses its mark); otherwise the **existing** row
is updated back to the previous rating with its marked flag intact, and —
contrary to the claim's "upsert" — **no row is created** when none exists.
Part two, the round trip: `rate(img, r)` followed by `undo()` restores
`get_annotation_for_image(img)` exactly, provided the pre-rate state was
not a marked rating-0 row (the case the counterexample exhibits). -/
theorem c3_undo_rate :
    (∀ (store : Store) (st : AppState) (e : HistEntry) (now : Nat)
        (user : String) (writeOk : Bool),
      st.history.getLast? = some e → e.action ≠ "delete" →
      (undo store st now user writeOk).1.current_index = e.index ∧
      (undo store st now user writeOk).1.history = st.history.dropLast ∧
      (e.old_rating = 0 → StoreOk store →
        annFind (undo store st now user writeOk).2 e.image_name = none) ∧
      (e.old_rating ≠ 0 → ∀ a, annFind store e.image_name = some a →
        annFind (undo store st now user writeOk).2 e.image_name
          = some { a with rating := e.old_rating }) ∧
      (e.old_rating ≠ 0 → annFind store e.image_name = none →
        (undo store st now user writeOk).2 = store)) ∧
    (∀ (numClasses maxHistory : Nat) (images : List String) (store : Store)
        (st : AppState) (r : Int) (img : String) (now now2 : Nat)
        (user : String) (writeOk : Bool),
      StoreOk store → 1 ≤ maxHistory → 1 ≤ r → r ≤ (numClasses : Int) →
      (get_current_image images store st).1 = some img →
      ¬((get_ann_data store img).rating = 0 ∧
          (get_ann_data store img).marked = true) →
      get_ann_data
          (undo (rate numClasses maxHistory images store st r now user).2
            (rate numClasses maxHistory images store st r now user).1
            now2 user writeOk).2 img
        = get_ann_data store img) := by
  constructor
  · intro store st e now user wOk hlast hact
    have hact' : (e.action == "delete") = false := by simp [hact]
    rw [undo_rate_cases store st e now user wOk hlast hact']
    refine ⟨rfl, rfl, ?_, ?_, ?_⟩
    · intro h0 hok
      rw [if_pos (by simp [h0] : (e.old_rating == 0) = true)]
      rcases hf : annFind store e.image_name with _ | a
      · exact hf
      · exact annFind_deleteFirst_of_storeOk hok
    · intro h0 a hf
      rw [if_neg (by simp [h0] : ¬((e.old_rating == 0) = true)), hf]
      dsimp only
      rw [@annFind_update_self store e.image_name
        (fun b => { b with rating := e.old_rating }) (fun b => rfl), hf]
      rfl
    · intro h0 hf
      rw [if_neg (by simp [h0] : ¬((e.old_rating == 0) = true)), hf]
  · intro numClasses maxHistory images store st r img now now2 user wOk
      hok hmax hr1 hr2 hres hnm
    have hrng : ¬(r < 1 ∨ r > (numClasses : Int)) := by omega
    rw [rate_eq numClasses maxHistory images store st r now user img hrng hres]
    rcases hfind : annFind store img with _ | a
    · have hdata : get_ann_data store img = ⟨0, false⟩ := by
        unfold get_ann_data; rw [hfind]
      rw [hdata]
      dsimp only
      rw [undo_rate_cases _ _ ⟨img, 0, (get_current_image images store st).2.current_index,
        "rate", none⟩ now2 user wOk (truncHist_getLast hmax) rfl]
      dsimp only
      rw [if_pos (by decide : ((0 : Int) == 0) = true)]
      have h1 : annFind (store ++ [⟨img, r, user, now, false⟩]) img
          = some ⟨img, r, user, now, false⟩ := by
        rw [annFind_append_of_none hfind]
        simp [annFind]
      rw [h1]
      dsimp only
      rw [annDeleteFirst_append_of_none hfind]
      have h2 : annDeleteFirst [⟨img, r, user, now, false⟩] img = [] := by
        simp [annDeleteFirst]
      rw [h2, List.append_nil]
      exact hdata
    · have hdata : get_ann_data store img = ⟨a.rating, a.marked⟩ := by
        unfold get_ann_data; rw [hfind]
      rw [hdata]
      dsimp only
      have hfind1 : annFind (annUpdateFirst store img
          (fun b => { b with rating := r, timestamp := now })) img
          = some { a with rating := r, timestamp := now } := by
        rw [@annFind_update_self store img
          (fun b => { b with rating := r, timestamp := now }) (fun b => rfl), hfind]
        rfl
      have hok1 : StoreOk (annUpdateFirst store img
          (fun b => { b with rating := r, timestamp := now })) :=
        storeOk_annUpdateFirst (fun b => rfl) hok
      rw [undo_rate_cases _ _ ⟨img, a.rating,
        (get_current_image images store st).2.current_index, "rate", none⟩
        now2 user wOk (truncHist_getLast hmax) rfl]
      dsimp only
      by_cases h0 : a.rating = 0
      · have hmark : a.marked = false := by
          by_contra hm
          simp only [Bool.not_eq_false] at hm
          exact hnm ⟨by rw [hdata]; exact h0, by rw [hdata]; exact hm⟩
        rw [if_pos (by simp [h0] : ((a.rating : Int) == 0) = true), hfind1]
        dsimp only
        unfold get_ann_data
        rw [annFind_deleteFirst_of_storeOk hok1]
        rw [h0, hmark]
      · rw [if_neg (by simp [h0] : ¬((a.rating : Int) == 0) = true), hfind1]
        dsimp only
        unfold get_ann_data
        rw [@annFind_update_self (annUpdateFirst store img
            (fun b => { b with rating := r, timestamp := now })) img
          (fun b => { b with rating := a.rating }) (fun b => rfl), hfind1]
        rfl

/-- C3, counterexample.  First conjunct: undoing a Rate entry with
previous rating 2 for an image with no current row leaves the store empty
— the claimed upsert would have created a row rated 2.  Second conjunct:
`rate` then `undo` on an image whose row was rating 0 but marked deletes
the row, so the visible annotation data changes from (0, marked) to
(0, unmarked): the claimed round trip fails. -/
theorem c3_counterexample :
    (undo [] ⟨0, false, none, [⟨"a", 2, 0, "rate", none⟩], ∅, none⟩
        8 "u" true).2 = [] ∧
    get_ann_data
        (undo (rate 5 10 ["a"] [⟨"a", 0, "u", 5, true⟩] stN0 3 7 "u").2
          (rate 5 10 ["a"] [⟨"a", 0, "u", 5, true⟩] stN0 3 7 "u").1
          8 "u" true).2 "a"
      ≠ get_ann_data [⟨"a", 0, "u", 5, true⟩] "a" := by
  refine ⟨by decide, by decide⟩

/-- C3, witness: a round trip through `rate 3` then `undo` on an image
with an existing rating-2 marked row restores the visible annotation
data, and the entry-level conjuncts hold on a concrete Rate entry. -/
theorem c3_undo_rate_witness :
    get_ann_data
        (undo (rate 5 10 ["a"] [⟨"a", 2, "u", 5, true⟩] stN0 3 7 "u").2
          (rate 5 10 ["a"] [⟨"a", 2, "u", 5, true⟩] stN0 3 7 "u").1
          8 "u" true).2 "a"
      = get_ann_data [⟨"a", 2, "u", 5, true⟩] "a" :=
  c3_undo_rate.2 5 10 ["a"] [⟨"a", 2, "u", 5, true⟩] stN0 3 "a" 7 8 "u" true
    (by simp [StoreOk]) (by decide) (by decide) (by decide) (by decide) (by decide)

/-! ### Claim C9 -/

/-- Modelled from the spec: "extension matches an allowed set
(case-insensitive)" — the lower-cased final path component ends with one
of the allowed extensions.  Used only to compare the claim's predicate
against the code's. -/
def extMatchesCI (p : FPath) : Bool :=
  allowedExts.any (fun e => e.data.isSuffixOf ((p.getLast?.getD "").data.map Char.toLower))

theorem mem_collect_go (files : List FPath) (exts : List String) :
    ∀ (acc : List FPath) (x : FPath),
      x ∈ exts.foldl (fun acc ext =>
          (acc ++ files.filter (nameEndsWith ext)) ++
            files.filter (nameEndsWith (upperStr ext))) acc ↔
        x ∈ acc ∨ ∃ e ∈ exts, x ∈ files ∧
          (nameEndsWith e x = true ∨ nameEndsWith (upperStr e) x = true) := by
  induction exts with
  | nil => simp
  | cons e t ih =>
    intro acc x
    show x ∈ t.foldl _ ((acc ++ _) ++ _) ↔ _
    rw [ih]
    simp only [List.mem_append, List.mem_filter, List.mem_cons]
    constructor
    · rintro (((h | ⟨h1, h2⟩) | ⟨h1, h2⟩) | ⟨e', he', h1, h2⟩)
      · exact Or.inl h
      · exact Or.inr ⟨e, Or.inl rfl, h1, Or.inl h2⟩
      · exact Or.inr ⟨e, Or.inl rfl, h1, Or.inr h2⟩
      · exact Or.inr ⟨e', Or.inr he', h1, h2⟩
    · rintro (h | ⟨e', he' | he', h1, h2⟩)
      · exact Or.inl (Or.inl (Or.inl h))
      · subst he'
        rcases h2 with h2 | h2
        · exact Or.inl (Or.inl (Or.inr ⟨h1, h2⟩))
        · exact Or.inl (Or.inr ⟨h1, h2⟩)
      · exact Or.inr ⟨e', he', h1, h2⟩

theorem collect_perm (files files' : List FPath) (h : files.Perm files') :
    ∀ (exts : List String) (acc acc' : List FPath), acc.Perm acc' →
      (exts.foldl (fun acc ext =>
          (acc ++ files.filter (nameEndsWith ext)) ++
            files.filter (nameEndsWith (upperStr ext))) acc).Perm
        (exts.foldl (fun acc ext =>
          (acc ++ files'.filter (nameEndsWith ext)) ++
            files'.filter (nameEndsWith (upperStr ext))) acc') := by
  intro exts
  induction exts with
  | nil => intro acc acc' hacc; exact hacc
  | cons e t ih =>
    intro acc acc' hacc
    exact ih _ _ (((hacc.append (h.filter _)).append (h.filter _)))

theorem lePath_trans (a b c : FPath) (h1 : (!(fpathLt b a)) = true)
    (h2 : (!(fpathLt c b)) = true) : (!(fpathLt c a)) = true := by
  simp only [Bool.not_eq_true'] at h1 h2 ⊢
  exact nltTrans (fun x y h h' => fpathLt_connex h h')
    (fun x y z h h' => fpathLt_trans h h') h1 h2

theorem lePath_total (a b : FPath) :
    (!(fpathLt b a)) = true ∨ (!(fpathLt a b)) = true := by
  simp only [Bool.not_eq_true']
  by_cases h : fpathLt b a = true
  · exact Or.inr (fpathLt_asymm h)
  · exact Or.inl (by simpa using h)

/-- C9, counterexample.  A file `a.Jpg` matches the allowed extension set
case-insensitively (the claim's predicate), but `get_image_files` only
matches the all-lowercase and all-uppercase extension patterns, so the
enumeration omits it. -/
theorem c9_counterexample :
    get_image_files (some [["a.Jpg"]]) = [] ∧ extMatchesCI ["a.Jpg"] = true := by
  refine ⟨by decide, by decide⟩

/-- C9 (amended): `get_image_files` of a missing root is empty (never an
error); for an existing root it contains exactly the files whose final
component ends with an allowed extension in all-lowercase or all-uppercase
form (mixed-case extensions are excluded, unlike the claim's
case-insensitive matching); the result is sorted by the pathlib order
(segment-wise, code-point comparison); and it is deterministic: any two
enumeration orders of the same file set produce the same output. -/
theorem c9_list_images :
    get_image_files none = [] ∧
    (∀ (files : List FPath) (p : FPath),
      p ∈ get_image_files (some files) ↔
        p ∈ files ∧ ∃ e ∈ allowedExts,
          nameEndsWith e p = true ∨ nameEndsWith (upperStr e) p = true) ∧
    (∀ fs, (get_image_files fs).Pairwise (fun a b => fpathLt b a = false)) ∧
    (∀ files files', files.Perm files' →
      get_image_files (some files) = get_image_files (some files')) := by
  refine ⟨rfl, ?_, ?_, ?_⟩
  · intro files p
    show p ∈ pySort _ _ ↔ _
    rw [mem_pySort, mem_collect_go]
    simp only [List.not_mem_nil, false_or]
    constructor
    · rintro ⟨e, he, h1, h2⟩
      exact ⟨h1, e, he, h2⟩
    · rintro ⟨h1, e, he, h2⟩
      exact ⟨e, he, h1, h2⟩
  · intro fs
    rcases fs with _ | files
    · simp [get_image_files]
    · show ((pySort (fun a b => !(fpathLt b a)) _).Pairwise _)
      exact (pairwise_pySort lePath_trans lePath_total _).imp
        (fun h => by simpa using h)
  · intro files files' hperm
    have hp : (get_image_files (some files)).Perm (get_image_files (some files')) := by
      show (pySort _ _).Perm (pySort _ _)
      exact ((pySort_perm _ _).trans
        (collect_perm files files' hperm allowedExts [] [] (List.Perm.refl _))).trans
        (pySort_perm _ _).symm
    have hs1 : (get_image_files (some files)).Pairwise
        (fun a b => fpathLt b a = false) := by
      show ((pySort (fun a b => !(fpathLt b a)) _).Pairwise _)
      exact (pairwise_pySort lePath_trans lePath_total _).imp
        (fun h => by simpa using h)
    have hs2 : (get_image_files (some files')).Pairwise
        (fun a b => fpathLt b a = false) := by
      show ((pySort (fun a b => !(fpathLt b a)) _).Pairwise _)
      exact (pairwise_pySort lePath_trans lePath_total _).imp
        (fun h => by simpa using h)
    exact @List.eq_of_perm_of_sorted FPath (fun a b => fpathLt b a = false)
      ⟨fun a b hab hba => fpathLt_connex hba hab⟩ _ _ hp hs1 hs2

/-- C9, witness: two enumeration orders of the same two files produce the
same sorted catalog. -/
theorem c9_list_images_witness :
    get_image_files (some [["b.png"], ["a.jpg"]])
      = get_image_files (some [["a.jpg"], ["b.png"]]) :=
  c9_list_images.2.2.2 [["b.png"], ["a.jpg"]] [["a.jpg"], ["b.png"]] (by decide)

end FastAnnotate
